import Mathlib

/-!
Verification development for the art_activity_collection crawler pipeline.

Python strings are modelled as `List Char` (`PyStr`); `None`-able values as
`Option`; raised exceptions as `Option.none` results where noted.  Each
definition is a direct translation of the named function in the repository
sources; boundary abstractions (BeautifulSoup, json.loads, the HTTP client)
are documented at their definition sites.
-/
/-- Model of a Python `str`. -/
abbrev PyStr := List Char

/-- `str.lower()` (ASCII case folding; the repository only compares ASCII). -/
def pyLower (s : PyStr) : PyStr := s.map Char.toLower

/-- `str.upper()`. -/
def pyUpper (s : PyStr) : PyStr := s.map Char.toUpper

/-- Python `str.strip()` with no argument: remove leading and trailing
whitespace. -/
def pyStrip (s : PyStr) : PyStr :=
  ((s.dropWhile Char.isWhitespace).reverse.dropWhile Char.isWhitespace).reverse

/-- `needle in haystack` for Python strings (substring containment). -/
def pyContains (haystack needle : PyStr) : Bool :=
  match haystack with
  | [] => needle.isEmpty
  | _ :: tl => needle.isPrefixOf haystack || pyContains tl needle

/-- `str.startswith(p)`. -/
def pyStartsWith (s p : PyStr) : Bool := p.isPrefixOf s

/-- `str.isdigit()` restricted to ASCII digits (the repository only feeds it
HTTP header values; non-ASCII digit classes are out of scope). -/
def pyIsDigit (s : PyStr) : Bool := !s.isEmpty && s.all Char.isDigit

/-- Numeric value of an ASCII digit string. -/
def digitsToNat (s : PyStr) : Nat :=
  s.foldl (fun acc c => acc * 10 + (c.toNat - 48)) 0

/-- `IRRELEVANT_ITEM_KEYWORDS` from `src/crawlers/extractors/filters.py`. -/
def IRRELEVANT_ITEM_KEYWORDS : List PyStr :=
  ["ticket".toList, "tickets".toList, "donate".toList,
   "membership".toList, "member".toList, "shop".toList]

/-- `is_irrelevant_item_text` from `src/crawlers/extractors/filters.py`.
`value` falsy (None or empty) is irrelevant; otherwise the stripped,
lower-cased text is compared against the fixed keyword set by equality or by
prefix-with-a-space. -/
def is_irrelevant_item_text (value : Option PyStr) : Bool :=
  match value with
  | none => true
  | some v =>
    if v.isEmpty then true
    else
      let normalized := pyLower (pyStrip v)
      if normalized.isEmpty then true
      else IRRELEVANT_ITEM_KEYWORDS.any fun keyword =>
        normalized = keyword || pyStartsWith normalized (keyword ++ [' '])

/-- C9 statement, spelled out from the claim's words: the value is absent,
empty or whitespace-only, or its trimmed lower-cased form equals a fixed
keyword or begins with one followed by a space. -/
def irrelevantPerClaim (value : Option PyStr) : Prop :=
  value = none ∨
    ∃ s, value = some s ∧
      (pyStrip s = [] ∨
        ∃ k ∈ IRRELEVANT_ITEM_KEYWORDS,
          pyLower (pyStrip s) = k ∨ pyStartsWith (pyLower (pyStrip s)) (k ++ [' ']) = true)

/-! ### Python dict model

A Python `dict` is modelled as an association list in insertion order:
inserting an existing key replaces its value in place, a new key is appended
at the end.  `dict.values()` is the list of second components. -/
/-- `d[k] = v` for a Python dict. -/
def dictInsert {κ α : Type} [DecidableEq κ] (k : κ) (v : α)
    (d : List (κ × α)) : List (κ × α) :=
  if d.any (fun p => p.1 = k) then
    d.map (fun p => if p.1 = k then (p.1, v) else p)
  else d ++ [(k, v)]

/-- `d.get(k)` for a Python dict: value of the (unique) entry with key `k`. -/
def dictLookup {κ α : Type} [DecidableEq κ] (d : List (κ × α)) (k : κ) :
    Option α :=
  match d with
  | [] => none
  | p :: tl => if p.1 = k then some p.2 else dictLookup tl k

/-- `list(set(...))`-style first-occurrence deduplication.  (CPython set
iteration order is hash-dependent; the pipeline only uses these lists for
membership tests, so first-occurrence order is an adequate model.) -/
def dedupFirst {α : Type} [DecidableEq α] (l : List α) : List α :=
  l.foldl (fun acc x => if x ∈ acc then acc else acc ++ [x]) []

/-! ### Data model of `src/models/activity.py` and `src/crawlers/pipeline/types.py` -/
/-- Naive/aware `datetime`: calendar fields plus an optional UTC offset in
minutes (`tzMin = none` models a naive datetime).  Microseconds are not
modelled; no code path in scope constructs a nonzero microsecond. -/
structure DT where
  year : Int
  month : Nat
  day : Nat
  hour : Nat
  minute : Nat
  second : Nat
  tzMin : Option Int
deriving DecidableEq, Repr

/-- `FreeVerificationStatus` enum from `src/models/activity.py`. -/
inductive FreeVerificationStatus where
  | confirmed
  | inferred
  | uncertain
deriving DecidableEq, Repr

/-- `ExtractedActivity` dataclass from `src/crawlers/pipeline/types.py`. -/
structure ExtractedActivity where
  source_url : PyStr
  title : PyStr
  description : Option PyStr
  venue_name : Option PyStr
  location_text : Option PyStr
  city : Option PyStr
  state : Option PyStr
  activity_type : Option PyStr
  age_min : Option Int
  age_max : Option Int
  drop_in : Option Bool
  registration_required : Option Bool
  start_at : DT
  end_at : Option DT
  timezone : PyStr
  free_verification_status : PyStr
deriving DecidableEq, Repr

/-- The identity key `(source_url, title, start_at)`. -/
abbrev IdentityKey := PyStr × PyStr × DT

/-- Identity key of a candidate. -/
def identityKey (a : ExtractedActivity) : IdentityKey :=
  (a.source_url, a.title, a.start_at)

/-- `Source` row (`src/models/activity.py`). -/
structure SourceRow where
  id : Nat
  name : PyStr
  base_url : PyStr
  adapter_type : PyStr
  crawl_frequency : PyStr
  active : Bool
deriving DecidableEq, Repr

/-- `Venue` row (`src/models/activity.py`); only the columns the pipeline
writes are carried. -/
structure VenueRow where
  id : Nat
  name : PyStr
  address : Option PyStr
  city : Option PyStr
  state : Option PyStr
  website : Option PyStr
deriving DecidableEq, Repr

/-- `Activity` row (`src/models/activity.py`); only the columns the pipeline
reads or writes are carried. -/
structure ActivityRow where
  id : Nat
  source_id : Nat
  source_url : PyStr
  title : PyStr
  description : Option PyStr
  activity_type : Option PyStr
  age_min : Option Int
  age_max : Option Int
  drop_in : Option Bool
  registration_required : Option Bool
  start_at : DT
  end_at : Option DT
  timezone : PyStr
  location_text : Option PyStr
  venue_id : Option Nat
  free_verification_status : FreeVerificationStatus
  first_seen_at : DT
  last_seen_at : DT
  updated_at : DT
deriving DecidableEq, Repr

/-- Identity key of a stored row. -/
def rowKey (a : ActivityRow) : IdentityKey := (a.source_url, a.title, a.start_at)

/-- The MySQL store reached through `SessionLocal`: the three tables in
insertion order plus autoincrement counters. -/
structure DB where
  sources : List SourceRow
  venues : List VenueRow
  activities : List ActivityRow
  nextSourceId : Nat
  nextVenueId : Nat
  nextActivityId : Nat
deriving DecidableEq, Repr

/-- The empty database. -/
def DB.empty : DB := ⟨[], [], [], 1, 1, 1⟩

/-! ### `src/crawlers/pipeline/runner.py` -/
/-- `_UPSERT_BATCH_SIZE`. -/
def UPSERT_BATCH_SIZE : Nat := 500

/-- `_to_free_status`: the `FreeVerificationStatus(value)` constructor looks a
member up by value and raises `ValueError` otherwise, which the function
catches and maps to `inferred`. -/
def to_free_status (value : PyStr) : FreeVerificationStatus :=
  if value = "confirmed".toList then .confirmed
  else if value = "inferred".toList then .inferred
  else if value = "uncertain".toList then .uncertain
  else .inferred

/-- `_normalize_optional_text`. -/
def normalize_optional_text (value : Option PyStr) : Option PyStr :=
  match value with
  | none => none
  | some v =>
    let trimmed := pyStrip v
    if trimmed.isEmpty then none else some trimmed

/-- `_normalize_state`. -/
def normalize_state (value : Option PyStr) : Option PyStr :=
  (normalize_optional_text value).map pyUpper

/-- Venue lookup key `(name, city, state)`. -/
abbrev VenueKey := PyStr × Option PyStr × Option PyStr

/-- `_venue_key_for`. -/
def venue_key_for (venue_name location_text city state : Option PyStr) :
    Option VenueKey :=
  let normalized_name := normalize_optional_text venue_name
  let normalized_location := normalize_optional_text location_text
  let normalized_city := normalize_optional_text city
  let normalized_state := normalize_state state
  if normalized_name = none ∧ normalized_location = none then none
  else some (normalized_name.getD ("Unknown Venue".toList), normalized_city, normalized_state)

/-- `_chunked`: the slices `values[i : i + size]` for `i in
range(0, len(values), size)`. -/
def chunked {α : Type} (values : List α) (size : Nat) : List (List α) :=
  (List.range ((values.length + size - 1) / size)).map
    (fun i => (values.drop (i * size)).take size)

/-- Venue key of a candidate, as computed inside the runner. -/
def venueKeyOf (item : ExtractedActivity) : Option VenueKey :=
  venue_key_for item.venue_name item.location_text item.city item.state

/-- The `desired_venues` dict of `_resolve_venues`: first pass over the batch
recording, per venue key, the first non-`None` normalized address (a key is
re-assigned only while its stored address is `None`). -/
def desiredVenues (extracted : List ExtractedActivity) :
    List (VenueKey × Option PyStr) :=
  extracted.foldl
    (fun d item =>
      match venueKeyOf item with
      | none => d
      | some vk =>
        let address := normalize_optional_text item.location_text
        if dictLookup d vk = none ∨ dictLookup d vk = some none then
          dictInsert vk address d
        else d)
    []

/-- One step of the `new_venues` creation pass of `_resolve_venues`. -/
def newVenueStep
    (st : List (VenueKey × VenueRow) × List VenueRow × Nat)
    (p : VenueKey × Option PyStr) :
    List (VenueKey × VenueRow) × List VenueRow × Nat :=
  if (dictLookup st.1 p.1).isSome then st
  else
    let v : VenueRow := ⟨st.2.2, p.1.1, p.2, p.1.2.1, p.1.2.2, none⟩
    (dictInsert p.1 v st.1, st.2.1 ++ [v], st.2.2 + 1)

/-- `_resolve_venues`.  The `select(Venue).where(Venue.name.in_(names))`
queries are modelled as filters over the venues table in row order; ids of
created venues are assigned by the autoincrement counter at flush. -/
def resolve_venues (db : DB) (extracted : List ExtractedActivity) :
    DB × List (VenueKey × VenueRow) :=
  let desired := desiredVenues extracted
  if desired.isEmpty then (db, [])
  else
    let venue_names := dedupFirst (desired.map (fun p => p.1.1))
    let existing_venues :=
      ((chunked venue_names UPSERT_BATCH_SIZE).map
        (fun names => db.venues.filter (fun v => v.name ∈ names))).flatten
    let venues_by_key :=
      existing_venues.foldl
        (fun m v =>
          dictInsert (v.name, normalize_optional_text v.city, normalize_state v.state) v m)
        []
    let built := desired.foldl newVenueStep (venues_by_key, [], db.nextVenueId)
    ({ db with venues := db.venues ++ built.2.1, nextVenueId := built.2.2 }, built.1)

/-- Split a string at the first occurrence of `sep`, returning the parts
before and after it. -/
def splitOnFirst (sep : PyStr) : PyStr → Option (PyStr × PyStr)
  | [] => if sep.isEmpty then some ([], []) else none
  | c :: tl =>
    if sep.isPrefixOf (c :: tl) then some ([], (c :: tl).drop sep.length)
    else (splitOnFirst sep tl).map (fun p => (c :: p.1, p.2))

/-- Scheme and netloc of `urllib.parse.urlparse`, for absolute URLs of the
shape `scheme://netloc/...`; other inputs yield empty scheme and netloc.
(The runner only consults `parsed.scheme` and `parsed.netloc`.) -/
def pyUrlSchemeNetloc (url : PyStr) : PyStr × PyStr :=
  match splitOnFirst ("://".toList) url with
  | none => ([], [])
  | some p => (p.1, p.2.takeWhile (fun c => c ≠ '/'))

/-- `literal(source_url).like(concat(Source.base_url, "%"))` for a
wildcard-free base URL: the stored base URL is a prefix of the batch URL. -/
def sourceMatches (source_url : PyStr) (s : SourceRow) : Bool :=
  pyStartsWith source_url s.base_url

/-- `order_by(func.length(Source.base_url).desc()).limit(1)`: the first row
of maximal `base_url` length among the matches. -/
def pickLongest (matched : List SourceRow) : Option SourceRow :=
  matched.foldl
    (fun best s =>
      match best with
      | none => some s
      | some b => if s.base_url.length > b.base_url.length then some s else best)
    none

/-- `f"{parsed.scheme}://{parsed.netloc}" if parsed.scheme and parsed.netloc
else source_url`. -/
def mkSourceBaseUrl (source_url : PyStr) : PyStr :=
  if ¬(pyUrlSchemeNetloc source_url).1.isEmpty ∧ ¬(pyUrlSchemeNetloc source_url).2.isEmpty then
    (pyUrlSchemeNetloc source_url).1 ++ ("://".toList) ++ (pyUrlSchemeNetloc source_url).2
  else source_url

/-- The `Source` row created lazily from the batch URL's scheme and netloc. -/
def mkSourceRow (nid : Nat) (source_url : PyStr) (adapter_type : PyStr) :
    SourceRow :=
  let name :=
    if (pyUrlSchemeNetloc source_url).2.isEmpty then ("unknown_source".toList)
    else (pyUrlSchemeNetloc source_url).2
  ⟨nid, name, mkSourceBaseUrl source_url, adapter_type, "daily".toList, true⟩

/-- Resolution of the owning `Source`: longest-`base_url`-prefix match of the
batch URL, lazily creating a row from the URL's scheme and netloc when
nothing matches. -/
def resolveSource (db : DB) (source_url : PyStr) (adapter_type : PyStr) :
    DB × SourceRow :=
  match pickLongest (db.sources.filter (sourceMatches source_url)) with
  | some s => (db, s)
  | none =>
    let s := mkSourceRow db.nextSourceId source_url adapter_type
    ({ db with sources := db.sources ++ [s], nextSourceId := db.nextSourceId + 1 }, s)

/-- The Python dict comprehension `{key(a): a for a in l}` followed by
`.values()`: one entry per distinct key in first-occurrence order, holding
the last value seen for that key. -/
def dedupeByKey {κ : Type} [DecidableEq κ] (key : ExtractedActivity → κ)
    (l : List ExtractedActivity) : List ExtractedActivity :=
  (l.foldl (fun d a => dictInsert (key a) a d) []).map (·.2)

/-- The chunked `select(Activity)` lookup of existing rows for the batch's
identity keys, in table order per chunk. -/
def existingItems (db : DB) (sid : Nat) (identity_keys : List IdentityKey) :
    List ActivityRow :=
  ((chunked identity_keys UPSERT_BATCH_SIZE).map
    (fun ch => db.activities.filter
      (fun a => a.source_id = sid ∧ rowKey a ∈ ch))).flatten

/-- The new `Activity` row inserted for a candidate with no existing match. -/
def mkActivityRow (nid : Nat) (sid : Nat) (venue : Option VenueRow)
    (now : DT) (item : ExtractedActivity) : ActivityRow :=
  { id := nid
    source_id := sid
    source_url := item.source_url
    title := item.title
    description := item.description
    activity_type := item.activity_type
    age_min := item.age_min
    age_max := item.age_max
    drop_in := item.drop_in
    registration_required := item.registration_required
    start_at := item.start_at
    end_at := item.end_at
    timezone := item.timezone
    location_text := item.location_text
    venue_id := venue.map (·.id)
    free_verification_status := to_free_status item.free_verification_status
    first_seen_at := now
    last_seen_at := now
    updated_at := now }

/-- The in-place mutation of a matched row: mutable fields and the
`last_seen_at`/`updated_at` stamps are refreshed, identity fields and
`first_seen_at` are untouched. -/
def updateActivityRow (venue : Option VenueRow) (now : DT)
    (item : ExtractedActivity) (a : ActivityRow) : ActivityRow :=
  { a with
    description := item.description
    activity_type := item.activity_type
    age_min := item.age_min
    age_max := item.age_max
    drop_in := item.drop_in
    registration_required := item.registration_required
    end_at := item.end_at
    timezone := item.timezone
    location_text := item.location_text
    venue_id := venue.map (·.id)
    free_verification_status := to_free_status item.free_verification_status
    last_seen_at := now
    updated_at := now }

/-- One iteration of the `for item in deduped` loop. -/
def processItem (sid : Nat) (existing_by_key : List (IdentityKey × ActivityRow))
    (venues_by_key : List (VenueKey × VenueRow)) (now : DT)
    (st : List ActivityRow × Nat) (item : ExtractedActivity) :
    List ActivityRow × Nat :=
  let (acts, nid) := st
  let current := dictLookup existing_by_key (identityKey item)
  let venue :=
    match venueKeyOf item with
    | some vk => dictLookup venues_by_key vk
    | none => none
  match current with
  | none => (acts ++ [mkActivityRow nid sid venue now item], nid + 1)
  | some cur =>
    (acts.map (fun a => if a.id = cur.id then updateActivityRow venue now item a else a),
     nid)

/-- `upsert_extracted_activities` from `src/crawlers/pipeline/runner.py`.
`now` stands for the `datetime.utcnow()` taken at entry; the committed
transaction is the returned database. -/
def upsert_extracted_activities (source_url : PyStr)
    (extracted : List ExtractedActivity) (adapter_type : PyStr) (now : DT)
    (db : DB) : DB × List ExtractedActivity :=
  let deduped := dedupeByKey identityKey extracted
  if deduped.isEmpty then (db, deduped)
  else
    let rsrc := resolveSource db source_url adapter_type
    let identity_keys := dedupFirst (deduped.map identityKey)
    let existing_by_key :=
      (existingItems rsrc.1 rsrc.2.id identity_keys).foldl
        (fun m a => dictInsert (rowKey a) a m) []
    let rven := resolve_venues rsrc.1 deduped
    let looped :=
      deduped.foldl (processItem rsrc.2.id existing_by_key rven.2 now)
        (rven.1.activities, rven.1.nextActivityId)
    ({ rven.1 with activities := looped.1, nextActivityId := looped.2 }, deduped)

/-- The venue row the loop associates with a candidate. -/
def venueFor (vbk : List (VenueKey × VenueRow)) (item : ExtractedActivity) :
    Option VenueRow :=
  match venueKeyOf item with
  | some vk => dictLookup vbk vk
  | none => none

/-- The rows appended by the upsert loop when no candidate has an existing
match, with consecutively assigned ids. -/
def insertedRows (sid : Nat) (vbk : List (VenueKey × VenueRow)) (now : DT) :
    List ExtractedActivity → Nat → List ActivityRow
  | [], _ => []
  | it :: rest, nid =>
    mkActivityRow nid sid (venueFor vbk it) now it
      :: insertedRows sid vbk now rest (nid + 1)

/-- Effect of the whole loop on one already-stored row, when every candidate
has a match: each candidate whose matched row carries this row's id rewrites
it in place. -/
def updFun (ebk : List (IdentityKey × ActivityRow))
    (vbk : List (VenueKey × VenueRow)) (now : DT) :
    List ExtractedActivity → ActivityRow → ActivityRow
  | [], a => a
  | it :: rest, a =>
    updFun ebk vbk now rest
      (match dictLookup ebk (identityKey it) with
       | some cur =>
         if a.id = cur.id then updateActivityRow (venueFor vbk it) now it a else a
       | none => a)

/-- A row id is touched by the loop when some candidate's matched row carries
that id. -/
def touchedBy (ebk : List (IdentityKey × ActivityRow))
    (items : List ExtractedActivity) (i : Nat) : Prop :=
  ∃ it ∈ items, ∃ cur, dictLookup ebk (identityKey it) = some cur ∧ cur.id = i

/-- Concrete batch for exercising the idempotent-upsert theorem. -/
def c1Item : ExtractedActivity :=
  { source_url := "https://example.org/events/1".toList
    title := "Teen Workshop".toList
    description := some ("Make art".toList)
    venue_name := some ("Example Museum".toList)
    location_text := some ("1 Main St".toList)
    city := some ("New York".toList)
    state := some ("ny".toList)
    activity_type := some ("workshop".toList)
    age_min := some 13
    age_max := some 17
    drop_in := some false
    registration_required := some true
    start_at := ⟨2026, 1, 10, 15, 0, 0, none⟩
    end_at := none
    timezone := "America/New_York".toList
    free_verification_status := "confirmed".toList }

/-- First-run timestamp for the witness. -/
def c1Now1 : DT := ⟨2026, 1, 9, 8, 0, 0, none⟩

/-- Second-run timestamp for the witness. -/
def c1Now2 : DT := ⟨2026, 1, 10, 8, 0, 0, none⟩

/-! ### Venue resolution analysis (C7) -/
/-- The fold step of the `desired_venues` accumulation loop, named for the
proofs below; `desiredVenues_eq` checks it matches the definition. -/
def desiredStep (d : List (VenueKey × Option PyStr)) (item : ExtractedActivity) :
    List (VenueKey × Option PyStr) :=
  match venueKeyOf item with
  | none => d
  | some vk =>
    let address := normalize_optional_text item.location_text
    if dictLookup d vk = none ∨ dictLookup d vk = some none then
      dictInsert vk address d
    else d

/-- Modelled from the claim's words: the first non-empty `location_text`
among the batch's candidates carrying the given venue key, in batch order. -/
def firstNonEmptyLocationInBatch : List ExtractedActivity → VenueKey → Option PyStr
  | [], _ => none
  | i :: rest, vk =>
    if venueKeyOf i = some vk then
      match normalize_optional_text i.location_text with
      | some a => some a
      | none => firstNonEmptyLocationInBatch rest vk
    else firstNonEmptyLocationInBatch rest vk

/-- The `existing_venues` query result of `_resolve_venues`, named. -/
def existingVenuesOf (db : DB) (e : List ExtractedActivity) : List VenueRow :=
  ((chunked (dedupFirst ((desiredVenues e).map (fun p => p.1.1))) UPSERT_BATCH_SIZE).map
    (fun names => db.venues.filter (fun v => v.name ∈ names))).flatten

/-- The initial `venues_by_key` dict of `_resolve_venues`, named. -/
def venuesByKeyOf (db : DB) (e : List ExtractedActivity) :
    List (VenueKey × VenueRow) :=
  (existingVenuesOf db e).foldl
    (fun m v =>
      dictInsert (v.name, normalize_optional_text v.city, normalize_state v.state) v m)
    []

/-- First candidate of the C7 counterexample batch: address `123 Main St`. -/
def c7cA : ExtractedActivity :=
  { source_url := "https://example.org/events/5".toList
    title := "Clay Night".toList
    description := none
    venue_name := some ("V Museum".toList)
    location_text := some ("123 Main St".toList)
    city := some ("New York".toList)
    state := some ("NY".toList)
    activity_type := none
    age_min := none
    age_max := none
    drop_in := none
    registration_required := none
    start_at := ⟨2026, 3, 5, 18, 0, 0, none⟩
    end_at := none
    timezone := "America/New_York".toList
    free_verification_status := "confirmed".toList }

/-- Second candidate: same identity key and venue triple, address
`456 Oak Ave`. -/
def c7cB : ExtractedActivity :=
  { c7cA with location_text := some ("456 Oak Ave".toList) }

/-- The shared normalized venue key of the counterexample batch. -/
def c7cKey : VenueKey :=
  ("V Museum".toList, some ("New York".toList), some ("NY".toList))

/-- First witness candidate: empty address. -/
def c7wA : ExtractedActivity :=
  { c7cA with
    title := "Print Studio".toList
    venue_name := some ("Example Hall".toList)
    location_text := none }

/-- Second witness candidate: distinct identity key, same venue triple,
address `22 River Rd`. -/
def c7wB : ExtractedActivity :=
  { c7wA with
    title := "Sketch Club".toList
    location_text := some ("22 River Rd".toList) }

/-- The witness batch's shared venue key. -/
def c7wKey : VenueKey :=
  ("Example Hall".toList, some ("New York".toList), some ("NY".toList))

/-- Candidate with a status string outside the enum. -/
def c10Item : ExtractedActivity :=
  { c7cA with
    title := "Zine Fair".toList
    free_verification_status := "bogus".toList }

/-- The row the one-candidate run on an empty store inserts. -/
def c10Row : ActivityRow :=
  mkActivityRow 1 1
    (venueFor (resolve_venues
        (resolveSource DB.empty ("https://example.org/events".toList)
          ("static_html".toList)).1
        (dedupeByKey identityKey [c10Item])).2 c10Item)
    ⟨2026, 4, 1, 7, 0, 0, none⟩ c10Item

/-! ### Fetch retry/backoff of `mfa.py` / `met.py` (C4) -/
/-- An HTTP exchange's observable pieces: status code, optional
`Retry-After` header, body text. -/
structure HttpResponse where
  status : Nat
  retryAfter : Option PyStr
  body : PyStr
deriving DecidableEq, Repr

/-- Result of a fetch run: returned body, `raise_for_status` on a non-OK
response, or the loop running out of attempts. -/
inductive FetchResult where
  | success (body : PyStr)
  | httpError (status : Nat)
  | exhausted
deriving DecidableEq, Repr

/-- `wait_seconds = base_backoff_seconds * (2 ** (attempt - 1))`. -/
def backoffWait (base : ℚ) (attempt : Nat) : ℚ := base * 2 ^ (attempt - 1)

/-- The wait before the next attempt: `Retry-After`, when present, truthy
and `isdigit()`, is used as the wait; otherwise the exponential backoff. -/
def retryWait (base : ℚ) (attempt : Nat) (r : HttpResponse) : ℚ :=
  match r.retryAfter with
  | some ra => if pyIsDigit ra then (digitsToNat ra : ℚ) else backoffWait base attempt
  | none => backoffWait base attempt

/-- `for attempt in range(1, max_attempts + 1)` body, identical in
`fetch_mfa_events_page` and `fetch_met_events_page` (transport exceptions
are outside this model; `responses` gives the exchange of each attempt and
the second component collects the `asyncio.sleep` durations).  A status
below 400 returns the body; statuses in {429, 500, 502, 503, 504} with
attempts remaining sleep and retry; anything else stops with the response's
status (`raise_for_status` in mfa, `break` + `raise_for_status` of the last
response in met with the Playwright fallback disabled). -/
def fetchHttpLoop (responses : Nat → HttpResponse) (base : ℚ)
    (max_attempts : Nat) : List Nat → List ℚ → FetchResult × List ℚ
  | [], sleeps => (FetchResult.exhausted, sleeps)
  | attempt :: rest, sleeps =>
    let r := responses attempt
    if r.status < 400 then (FetchResult.success r.body, sleeps)
    else if (r.status = 429 ∨ r.status = 500 ∨ r.status = 502 ∨
        r.status = 503 ∨ r.status = 504) ∧ attempt < max_attempts then
      fetchHttpLoop responses base max_attempts rest
        (sleeps ++ [retryWait base attempt r])
    else (FetchResult.httpError r.status, sleeps)

/-- `fetch_mfa_events_page` (`src/crawlers/adapters/mfa.py`). -/
def fetch_mfa_events_page (responses : Nat → HttpResponse) (base : ℚ)
    (max_attempts : Nat) : FetchResult × List ℚ :=
  fetchHttpLoop responses base max_attempts (List.range' 1 max_attempts) []

/-- `fetch_met_events_page` (`src/crawlers/adapters/met.py`): same loop,
then the Playwright fallback (`pw` is its result, `none` = it raised) when
the loop did not return a body. -/
def fetch_met_events_page (responses : Nat → HttpResponse) (base : ℚ)
    (max_attempts : Nat) (use_playwright_fallback : Bool) (pw : Option PyStr) :
    FetchResult × List ℚ :=
  match fetchHttpLoop responses base max_attempts (List.range' 1 max_attempts) [] with
  | (FetchResult.success b, sleeps) => (FetchResult.success b, sleeps)
  | (res, sleeps) =>
    if use_playwright_fallback then
      match pw with
      | some html => (FetchResult.success html, sleeps)
      | none => (res, sleeps)
    else (res, sleeps)

/-- Witness responses: 503, 503, then 200. -/
def c4Resp : Nat → HttpResponse := fun n =>
  if n = 1 then ⟨503, none, "e1".toList⟩
  else if n = 2 then ⟨503, none, "e2".toList⟩
  else ⟨200, none, "ok".toList⟩

/-- Witness responses: 429 with `Retry-After: 7`, then 200. -/
def c4Resp2 : Nat → HttpResponse := fun n =>
  if n = 1 then ⟨429, some ("7".toList), "r1".toList⟩
  else ⟨200, none, "ok2".toList⟩

/-! ### Age regexes of `whitney.py` / `moma.py` (C8)

`AGE_RANGE_RE = \bages?\s*(\d{1,2})\s*(?:-|–|to)\s*(\d{1,2})\b` and
`AGE_PLUS_RE = \bages?\s*(\d{1,2})\+\b`, both `re.IGNORECASE`, modelled as
specialized backtracking matchers: candidate continuations are listed in
the regex engine's preference order and `findSome?` commits to the first
that completes, exactly as leftmost-first matching does. -/
/-- `\w` for the ASCII texts in scope. -/
def isWordChar (c : Char) : Bool := c.isAlphanum || c = '_'

/-- One- or two-digit candidates of `(\d{1,2})` in greedy order:
`(value, rest)` with two digits first. -/
def takeDigits2 : PyStr → List (Nat × PyStr)
  | [] => []
  | [d] => if d.isDigit then [(d.toNat - 48, [])] else []
  | d1 :: d2 :: rest =>
    if d1.isDigit then
      if d2.isDigit then
        [((d1.toNat - 48) * 10 + (d2.toNat - 48), rest), (d1.toNat - 48, d2 :: rest)]
      else [(d1.toNat - 48, d2 :: rest)]
    else []

/-- Continuations after `ages?` (case-insensitive), the `s`-taking
alternative first. -/
def ageKeyword : PyStr → List PyStr
  | a :: g :: e :: rest =>
    if a.toLower = 'a' ∧ g.toLower = 'g' ∧ e.toLower = 'e' then
      match rest with
      | s' :: rest2 => if s'.toLower = 's' then [rest2, rest] else [rest]
      | [] => [rest]
    else []
  | _ => []

/-- Continuations after `(?:-|–|to)` (case-insensitive), in alternative
order. -/
def ageSepRest : PyStr → List PyStr
  | [] => []
  | c :: r =>
    (if c = '-' then [r] else []) ++ (if c = '–' then [r] else []) ++
    (if c.toLower = 't' then
      match r with
      | c2 :: r2 => if c2.toLower = 'o' then [r2] else []
      | [] => []
    else [])

/-- `\s*` before a non-space continuation (spaces and what follows are
disjoint here, so greedy consumption is deterministic). -/
def dropSpacesRe (s : PyStr) : PyStr := s.dropWhile Char.isWhitespace

/-- Tail of `AGE_PLUS_RE` after `ages?\s*`: digits, `+`, then `\b` — since
`+` is a non-word character, the final boundary requires a *word* character
right after the `+`. -/
def agePlusTail (s : PyStr) : Option Nat :=
  (takeDigits2 s).findSome? fun p =>
    match p.2 with
    | '+' :: c :: _ => if isWordChar c then some p.1 else none
    | _ => none

/-- Tail of `AGE_RANGE_RE` after `ages?\s*`: digits, `\s*`, separator,
`\s*`, digits, then `\b` (end of text or a non-word character). -/
def ageRangeTail (s : PyStr) : Option (Nat × Nat) :=
  (takeDigits2 s).findSome? fun p =>
    (ageSepRest (dropSpacesRe p.2)).findSome? fun r2 =>
      (takeDigits2 (dropSpacesRe r2)).findSome? fun q =>
        match q.2 with
        | [] => some (p.1, q.1)
        | c :: _ => if isWordChar c then none else some (p.1, q.1)

/-- `AGE_PLUS_RE.search`: leftmost position whose attempt completes; the
leading `\b` holds because the previous character is non-word (or absent)
and `a` is a word character. -/
def searchAgePlusAux (prevWord : Bool) : PyStr → Option Nat
  | [] => none
  | c :: rest =>
    match
      if prevWord then none
      else (ageKeyword (c :: rest)).findSome? fun r => agePlusTail (dropSpacesRe r)
    with
    | some v => some v
    | none => searchAgePlusAux (isWordChar c) rest

def searchAgePlus (s : PyStr) : Option Nat := searchAgePlusAux false s

/-- `AGE_RANGE_RE.search`. -/
def searchAgeRangeAux (prevWord : Bool) : PyStr → Option (Nat × Nat)
  | [] => none
  | c :: rest =>
    match
      if prevWord then none
      else (ageKeyword (c :: rest)).findSome? fun r => ageRangeTail (dropSpacesRe r)
    with
    | some v => some v
    | none => searchAgeRangeAux (isWordChar c) rest

def searchAgeRange (s : PyStr) : Option (Nat × Nat) := searchAgeRangeAux false s

/-- `_parse_age_range` of `src/crawlers/adapters/whitney.py`. -/
def whitney_parse_age_range (title : PyStr) (description : Option PyStr) :
    Option Nat × Option Nat :=
  let blob := title ++ " ".toList ++ (description.getD [])
  match searchAgeRange blob with
  | some p => (some p.1, some p.2)
  | none =>
    match searchAgePlus blob with
    | some a => (some a, none)
    | none => (some 13, some 17)

/-- `_parse_age_range` of `src/crawlers/adapters/moma.py` (`blob` joins the
description only when it is truthy). -/
def moma_parse_age_range (title : PyStr) (description : Option PyStr)
    (audience : PyStr) : Option Nat × Option Nat :=
  let blob :=
    match description with
    | none => title
    | some d => if d.isEmpty then title else title ++ " ".toList ++ d
  match searchAgeRange blob with
  | some p => (some p.1, some p.2)
  | none =>
    match searchAgePlus blob with
    | some a => (some a, none)
    | none =>
      if pyLower audience = "teens".toList then (some 13, some 17)
      else if pyLower audience = "kids".toList then (none, some 12)
      else (none, none)

/-! ### Temporal parsing of `mfa.py` / `whitney.py` / `met.py` (C5)

`DATE_TIME_RE`, `TIME_RANGE_RE`, `TIME_SINGLE_RE` and `TIME_LOCATION_RE`
are modelled as specialized matchers in the same candidate-list style as
the age regexes. -/
/-- `str.split()` (whitespace runs, empties dropped); the accumulator holds
the current word reversed. -/
def pySplitWsAux : PyStr → PyStr → List PyStr
  | cur, [] => if cur.isEmpty then [] else [cur.reverse]
  | cur, c :: r =>
    if c.isWhitespace then
      if cur.isEmpty then pySplitWsAux [] r else cur.reverse :: pySplitWsAux [] r
    else pySplitWsAux (c :: cur) r

/-- `_normalize_space`: `" ".join(text.split())`. -/
def normalize_space (s : PyStr) : PyStr :=
  List.intercalate (" ".toList) (pySplitWsAux [] s)

/-- `(?::(\d{2}))?` candidates in greedy order: `(minutes?, rest)`. -/
def optColon2 (s : PyStr) : List (Option Nat × PyStr) :=
  match s with
  | ':' :: d1 :: d2 :: r =>
    if d1.isDigit ∧ d2.isDigit then
      [(some ((d1.toNat - 48) * 10 + (d2.toNat - 48)), r), (none, s)]
    else [(none, s)]
  | _ => [(none, s)]

/-- `(a\.?m\.?|p\.?m\.?|am|pm)` (case-insensitive) candidates in preference
order: `(is_pm, rest)`, the greedy trailing-dot take first.  The dotted
alternatives subsume the plain `am|pm` ones, and a leading dot not followed
by `m` fails every alternative, so those need no further candidates. -/
def meridiemToks : PyStr → List (Bool × PyStr)
  | [] => []
  | c :: r =>
    if c.toLower = 'a' ∨ c.toLower = 'p' then
      let pm := c.toLower = 'p'
      let r1 := match r with | '.' :: r' => r' | _ => r
      match r1 with
      | m :: r2 =>
        if m.toLower = 'm' then
          match r2 with
          | '.' :: r3 => [(pm, r3), (pm, r2)]
          | _ => [(pm, r2)]
        else []
      | [] => []
    else []

/-- `(?:-|–|—|to)` (case-insensitive) continuations in alternative
order. -/
def timeSepRest : PyStr → List PyStr
  | [] => []
  | c :: r =>
    (if c = '-' then [r] else []) ++ (if c = '–' then [r] else []) ++
    (if c = '—' then [r] else []) ++
    (if c.toLower = 't' then
      match r with
      | c2 :: r2 => if c2.toLower = 'o' then [r2] else []
      | [] => []
    else [])

/-- One attempt of `TIME_RANGE_RE` at a position: groups
`(1 start hour, 2 start minutes, 3 start meridiem, 6 end meridiem)`. -/
def tryTimeRange (s : PyStr) : Option (Nat × Option Nat × Option Bool × Bool) :=
  (takeDigits2 s).findSome? fun p =>
    (optColon2 p.2).findSome? fun q =>
      let r3 := dropSpacesRe q.2
      (((meridiemToks r3).map (fun b => (some b.1, dropSpacesRe b.2)))
          ++ [((none : Option Bool), r3)]).findSome? fun mer =>
        (timeSepRest mer.2).findSome? fun r5 =>
          (takeDigits2 (dropSpacesRe r5)).findSome? fun p2 =>
            (optColon2 p2.2).findSome? fun q2 =>
              (meridiemToks (dropSpacesRe q2.2)).findSome? fun b2 =>
                some (p.1, q.1, mer.1, b2.1)

/-- `TIME_RANGE_RE.search` (no boundary assertions: every position is
tried). -/
def searchTimeRange : PyStr → Option (Nat × Option Nat × Option Bool × Bool)
  | [] => none
  | c :: rest =>
    match tryTimeRange (c :: rest) with
    | some v => some v
    | none => searchTimeRange rest

/-- One attempt of `TIME_SINGLE_RE` after its leading `\b`: groups
`(1 hour, 2 minutes, 3 meridiem)`; the trailing `\b` needs the text to end
or continue with a non-word character. -/
def tryTimeSingle (s : PyStr) : Option (Nat × Option Nat × Bool) :=
  (takeDigits2 s).findSome? fun p =>
    (optColon2 p.2).findSome? fun q =>
      (meridiemToks (dropSpacesRe q.2)).findSome? fun b =>
        match b.2 with
        | [] => some (p.1, q.1, b.1)
        | c :: _ => if isWordChar c then none else some (p.1, q.1, b.1)

/-- `TIME_SINGLE_RE.search`, tracking the previous character for the
leading `\b` (the first matched character is a digit, a word character). -/
def searchTimeSingleAux (prevWord : Bool) : PyStr → Option (Nat × Option Nat × Bool)
  | [] => none
  | c :: rest =>
    match if prevWord then none else tryTimeSingle (c :: rest) with
    | some v => some v
    | none => searchTimeSingleAux (isWordChar c) rest

def searchTimeSingle (s : PyStr) : Option (Nat × Option Nat × Bool) :=
  searchTimeSingleAux false s

/-- `_to_24h` (no range check: `13 pm` comes out as hour 25 and blows up in
`datetime.replace` later). -/
def to_24h (hour minute : Nat) (isPM : Bool) : Nat × Nat :=
  let h1 := if isPM ∧ hour ≠ 12 then hour + 12 else hour
  ((if ¬ isPM ∧ h1 = 12 then 0 else h1), minute)

/-- `_parse_start_time_parts`.  In the range branch `group(6)` is a
mandatory group, so `start_meridiem` is always truthy and the branch always
returns. -/
def parse_start_time_parts (text : PyStr) : Option (Nat × Nat) :=
  let normalized := normalize_space text
  match searchTimeRange normalized with
  | some (h1, m1, mer1, mer6) => some (to_24h h1 (m1.getD 0) (mer1.getD mer6))
  | none =>
    match searchTimeSingle normalized with
    | some (h, m, b) => some (to_24h h (m.getD 0) b)
    | none => none

/-- `_normalize_meridiem`. -/
def normalize_meridiem (t : Option PyStr) : Option PyStr :=
  match t with
  | none => none
  | some text =>
    if text.isEmpty then none
    else
      let normalized := normalize_space (pyUpper (text.filter (fun c => c ≠ '.')))
      if ("AM".toList).isSuffixOf normalized ∨ ("PM".toList).isSuffixOf normalized then
        some normalized
      else some text

/-- Full month names for `%B` (strptime matches them case-insensitively). -/
def monthFromFull (s : PyStr) : Option Nat :=
  let l := pyLower s
  if l = "january".toList then some 1
  else if l = "february".toList then some 2
  else if l = "march".toList then some 3
  else if l = "april".toList then some 4
  else if l = "may".toList then some 5
  else if l = "june".toList then some 6
  else if l = "july".toList then some 7
  else if l = "august".toList then some 8
  else if l = "september".toList then some 9
  else if l = "october".toList then some 10
  else if l = "november".toList then some 11
  else if l = "december".toList then some 12
  else none

/-- Abbreviated month names for `%b`. -/
def monthFromAbbr (s : PyStr) : Option Nat :=
  let l := pyLower s
  if l = "jan".toList then some 1
  else if l = "feb".toList then some 2
  else if l = "mar".toList then some 3
  else if l = "apr".toList then some 4
  else if l = "may".toList then some 5
  else if l = "jun".toList then some 6
  else if l = "jul".toList then some 7
  else if l = "aug".toList then some 8
  else if l = "sep".toList then some 9
  else if l = "oct".toList then some 10
  else if l = "nov".toList then some 11
  else if l = "dec".toList then some 12
  else none

def isLeapYear (y : Int) : Prop := y % 4 = 0 ∧ (y % 100 ≠ 0 ∨ y % 400 = 0)

instance (y : Int) : Decidable (isLeapYear y) := by
  unfold isLeapYear
  infer_instance

def daysInMonth (y : Int) (m : Nat) : Nat :=
  if m = 2 then (if isLeapYear y then 29 else 28)
  else if m = 4 ∨ m = 6 ∨ m = 9 ∨ m = 11 then 30
  else 31

/-- `datetime(year, month, day)` construction check shared by the strptime
and fromisoformat models (`ValueError` out of range). -/
def validDate (y : Int) (m d : Nat) : Prop :=
  1 ≤ y ∧ 1 ≤ m ∧ m ≤ 12 ∧ 1 ≤ d ∧ d ≤ daysInMonth y m

instance (y : Int) (m d : Nat) : Decidable (validDate y m d) := by
  unfold validDate
  infer_instance

/-- `datetime.strptime(_, "%B %d, %Y")` / fallback `"%b %d, %Y"` applied to
`DATE_TIME_RE`'s group 1, whose shape fixes the tokens: the letter run must
be a (full, then abbreviated) month name and the day must exist in that
month. -/
def strptime_B_d_Y (mon : PyStr) (day year : Nat) : Option DT :=
  match (monthFromFull mon).or (monthFromAbbr mon) with
  | none => none
  | some m =>
    if validDate (Int.ofNat year) m day then
      some ⟨Int.ofNat year, m, day, 0, 0, 0, none⟩
    else none

/-- Four ASCII digits. -/
def fourDigits : PyStr → Option (Nat × PyStr)
  | d1 :: d2 :: d3 :: d4 :: r =>
    if d1.isDigit ∧ d2.isDigit ∧ d3.isDigit ∧ d4.isDigit then
      some (((d1.toNat - 48) * 1000 + (d2.toNat - 48) * 100 +
        (d3.toNat - 48) * 10 + (d4.toNat - 48)), r)
    else none
  | _ => none

/-- Two ASCII digits. -/
def twoDigits : PyStr → Option (Nat × PyStr)
  | d1 :: d2 :: r =>
    if d1.isDigit ∧ d2.isDigit then
      some ((d1.toNat - 48) * 10 + (d2.toNat - 48), r)
    else none
  | _ => none

/-- `datetime.fromisoformat` on the shapes the adapters receive:
`YYYY-MM-DD`, optionally followed by `T` or a space and `HH:MM[:SS]`,
optionally followed by a `±HH:MM` offset (the caller has already rewritten
a trailing `Z` to `+00:00`).  Exotic ISO-8601 forms (compact digits, week
dates, fractional seconds, other separators) are outside this model's
scope. -/
def fromisoformatLite (s : PyStr) : Option DT :=
  match fourDigits s with
  | none => none
  | some (y, r1) =>
    match r1 with
    | '-' :: r2 =>
      match twoDigits r2 with
      | none => none
      | some (mo, r3) =>
        match r3 with
        | '-' :: r4 =>
          match twoDigits r4 with
          | none => none
          | some (d, r5) =>
            if ¬ validDate (Int.ofNat y) mo d then none
            else
              match r5 with
              | [] => some ⟨Int.ofNat y, mo, d, 0, 0, 0, none⟩
              | sep :: r6 =>
                if sep = 'T' ∨ sep = ' ' then
                  match twoDigits r6 with
                  | none => none
                  | some (hh, r7) =>
                    match r7 with
                    | ':' :: r8 =>
                      match twoDigits r8 with
                      | none => none
                      | some (mi, r9) =>
                        let withSec :=
                          match r9 with
                          | ':' :: r10 =>
                            match twoDigits r10 with
                            | none => none
                            | some (ss, r11) => some (ss, r11)
                          | _ => some (0, r9)
                        match withSec with
                        | none => none
                        | some (ss, r12) =>
                          if hh ≤ 23 ∧ mi ≤ 59 ∧ ss ≤ 59 then
                            match r12 with
                            | [] => some ⟨Int.ofNat y, mo, d, hh, mi, ss, none⟩
                            | sgn :: r13 =>
                              if sgn = '+' ∨ sgn = '-' then
                                match twoDigits r13 with
                                | none => none
                                | some (oh, r14) =>
                                  match r14 with
                                  | ':' :: r15 =>
                                    match twoDigits r15 with
                                    | none => none
                                    | some (om, r16) =>
                                      if r16.isEmpty ∧ oh ≤ 23 ∧ om ≤ 59 then
                                        some ⟨Int.ofNat y, mo, d, hh, mi, ss,
                                          some ((if sgn = '-' then -1 else 1) *
                                            (Int.ofNat (oh * 60 + om)))⟩
                                      else none
                                  | _ => none
                              else none
                          else none
                    | _ => none
                else none
        | _ => none
    | _ => none

/-- Rest after `DATE_TIME_RE`'s optional time group
`(\d{1,2}(?::\d{2})?\s*(?:a\.?m\.?|p\.?m\.?|AM|PM))`. -/
def dtTimeGroupRest (s : PyStr) : Option PyStr :=
  (takeDigits2 s).findSome? fun p =>
    (optColon2 p.2).findSome? fun q =>
      (meridiemToks (dropSpacesRe q.2)).findSome? fun b => some b.2

/-- One attempt of `DATE_TIME_RE` at a position: the letter run must be
3–9 letters long (a longer run fails here, though the search may later
start inside it), then `\s+`, a 1–2 digit day, `,`, `\s+`, four year
digits; the optional time group needs at least one non-digit, then matches
from the first following digit run or not at all.  Result:
`(month letters, day, year, group 2 text)`. -/
def tryDateTimeAt (s : PyStr) : Option (PyStr × Nat × Nat × Option PyStr) :=
  let letters := s.takeWhile Char.isAlpha
  let rest := s.dropWhile Char.isAlpha
  if 3 ≤ letters.length ∧ letters.length ≤ 9 then
    let ws := rest.takeWhile Char.isWhitespace
    let r2 := rest.dropWhile Char.isWhitespace
    if ws.isEmpty then none
    else
      (takeDigits2 r2).findSome? fun p =>
        match p.2 with
        | ',' :: r3 =>
          let ws2 := r3.takeWhile Char.isWhitespace
          let r4 := r3.dropWhile Char.isWhitespace
          if ws2.isEmpty then none
          else
            match fourDigits r4 with
            | none => none
            | some (year, r5) =>
              let nd := r5.takeWhile (fun c => ¬ c.isDigit)
              let r6 := r5.dropWhile (fun c => ¬ c.isDigit)
              let g2 :=
                if nd.isEmpty then none
                else
                  match dtTimeGroupRest r6 with
                  | some rest' => some (r6.take (r6.length - rest'.length))
                  | none => none
              some (letters, p.1, year, g2)
        | _ => none
  else none

/-- `DATE_TIME_RE.search` (no boundary assertions). -/
def searchDateTime : PyStr → Option (PyStr × Nat × Nat × Option PyStr)
  | [] => none
  | c :: rest =>
    match tryDateTimeAt (c :: rest) with
    | some v => some v
    | none => searchDateTime rest

/-- `datetime.strptime(time_part, "%I:%M %p")`: 1–2 hour digits in 1..12,
`:`, 1–2 minute digits ≤ 59, optional whitespace, `AM`/`PM`
(case-insensitive), end of string.  (Nearly dead: any string of that shape
already matched `TIME_SINGLE_RE` in `_parse_start_time_parts`.) -/
def strptime_IMp_str (s : PyStr) : Option (Nat × Nat) :=
  (takeDigits2 s).findSome? fun p =>
    match p.2 with
    | ':' :: r1 =>
      (takeDigits2 r1).findSome? fun q =>
        (meridiemToks (dropSpacesRe q.2)).findSome? fun b =>
          if b.2.isEmpty ∧ 1 ≤ p.1 ∧ p.1 ≤ 12 ∧ q.1 ≤ 59 then
            some ((if b.1 then (if p.1 = 12 then 12 else p.1 + 12)
              else (if p.1 = 12 then 0 else p.1)), q.1)
          else none
    | _ => none

/-- `day.replace(hour=…, minute=…, second=0, microsecond=0)`; `none` is the
uncaught `ValueError` on an out-of-range hour or minute. -/
def dtReplaceHM (d : DT) (h m : Nat) : Option DT :=
  if h ≤ 23 ∧ m ≤ 59 then some { d with hour := h, minute := m, second := 0 }
  else none

/-- The `text` variable of `_parse_datetime` for a string `value`:
stripped, with a trailing `Z` rewritten to `+00:00`. -/
def mfaNormalizedText (value : PyStr) : PyStr :=
  let t := pyStrip value
  if t.getLast? = some 'Z' then t.dropLast ++ "+00:00".toList else t

/-- `_parse_datetime` of `src/crawlers/adapters/mfa.py` applied to a string
value (`src/crawlers/adapters/whitney.py` carries a character-identical
copy of the function; the dict and list branches only recurse into nested
values and are out of this claim's scope).  `none` covers both `return
None` and the uncaught `ValueError` of `datetime.replace` on an
out-of-range converted hour. -/
def mfa_parse_datetime (value : PyStr) : Option DT :=
  if value.isEmpty then none
  else
    let text := mfaNormalizedText value
    if text.isEmpty then none
    else
      match fromisoformatLite text with
      | some dt => some dt
      | none =>
        match searchDateTime text with
        | none => none
        | some (mon, dayN, yearN, g2) =>
          match strptime_B_d_Y mon dayN yearN with
          | none => none
          | some day =>
            match normalize_meridiem g2 with
            | none =>
              match parse_start_time_parts text with
              | some hm => dtReplaceHM day hm.1 hm.2
              | none => some day
            | some tp =>
              match parse_start_time_parts tp with
              | some hm => dtReplaceHM day hm.1 hm.2
              | none =>
                match strptime_IMp_str tp with
                | some hm => some { day with hour := hm.1, minute := hm.2 }
                | none => some day

/-- `TIME_LOCATION_RE.match` (anchored): `^(\d{1,2}:\d{2}\s*[AP]M)`,
returning the hour and minute digits and the meridiem of group 1. -/
def timeLocationMatch (s : PyStr) : Option (Nat × Nat × Bool) :=
  let parseTail : Nat → PyStr → Option (Nat × Nat × Bool) := fun h rest =>
    match rest with
    | ':' :: d1 :: d2 :: rest2 =>
      if d1.isDigit ∧ d2.isDigit then
        match rest2.dropWhile Char.isWhitespace with
        | ap :: mm :: _ =>
          if (ap.toLower = 'a' ∨ ap.toLower = 'p') ∧ mm.toLower = 'm' then
            some (h, (d1.toNat - 48) * 10 + (d2.toNat - 48), ap.toLower = 'p')
          else none
        | _ => none
      else none
    | _ => none
  match s with
  | c1 :: c2 :: rest =>
    if c1.isDigit then
      if c2.isDigit then
        parseTail ((c1.toNat - 48) * 10 + (c2.toNat - 48)) rest
      else parseTail (c1.toNat - 48) (c2 :: rest)
    else none
  | _ => none

/-- `datetime.strptime(group(1).upper(), "%I:%M %p")` followed by the
24-hour conversion `parsed_time.hour`; `none` is the uncaught
`ValueError`. -/
def met_strptime_IMp (h m : Nat) (isPM : Bool) : Option (Nat × Nat) :=
  if 1 ≤ h ∧ h ≤ 12 ∧ m ≤ 59 then
    some ((if isPM then (if h = 12 then 12 else h + 12)
      else (if h = 12 then 0 else h)), m)
  else none

/-- `_parse_start_datetime` of `src/crawlers/adapters/met.py`.  `now`
stands for the `datetime.now()` default; when `day` is `None` the function
substitutes `now` and still returns a timestamp. -/
def met_parse_start_datetime (day : Option DT) (time_line : Option PyStr)
    (now : DT) : Option DT :=
  let d := day.getD now
  match time_line with
  | none => some { d with hour := 0, minute := 0, second := 0 }
  | some tl =>
    if tl.isEmpty then some { d with hour := 0, minute := 0, second := 0 }
    else
      match timeLocationMatch tl with
      | none => some { d with hour := 0, minute := 0, second := 0 }
      | some (h, m, pm) =>
        match met_strptime_IMp h m pm with
        | none => none
        | some hm => some { d with hour := hm.1, minute := hm.2, second := 0 }

/-! ### Met line-cursor fallback (C6)

The `while i < len(lines)` loop of `parse_met_events_html`'s DOM fallback,
restructured as structural recursion over the line list: the inner block
scan becomes an explicit block-accumulator state, flushed when a boundary
line (date heading or known title) or the end of input is reached — the
boundary line itself is then handled exactly as the outer loop would
(`i = j` re-processes it).  `title_to_links` (built from the soup's
anchors) and the line list are the loop's inputs; `_parse_date_heading` is
taken as a parameter since only the free-line rule is at stake here. -/
/-- `_looks_like_price`. -/
def looks_like_price (t : PyStr) : Bool :=
  pyContains (pyLower t) ("free".toList) || pyContains t ("$".toList) ||
  pyContains (pyLower t) ("member".toList) || pyContains (pyLower t) ("ticket".toList)

/-- `DATE_HEADING_RE.match` (anchored at both ends, case-sensitive):
returns group 2, `([A-Za-z]+\s+\d{1,2})`. -/
def dateHeadingMatch (l : PyStr) : Option PyStr :=
  (["Monday", "Tuesday", "Wednesday", "Thursday", "Friday", "Saturday",
    "Sunday"].map String.toList).findSome? fun d =>
    if d.isPrefixOf l then
      match l.drop d.length with
      | ',' :: r =>
        let ws := r.takeWhile Char.isWhitespace
        let r2 := r.dropWhile Char.isWhitespace
        if ws.isEmpty then none
        else
          let letters := r2.takeWhile Char.isAlpha
          let r3 := r2.dropWhile Char.isAlpha
          if letters.isEmpty then none
          else
            let ws2 := r3.takeWhile Char.isWhitespace
            let r4 := r3.dropWhile Char.isWhitespace
            if ws2.isEmpty then none
            else
              match r4 with
              | [d1] => if d1.isDigit then some (letters ++ ws2 ++ [d1]) else none
              | [d1, d2] =>
                if d1.isDigit ∧ d2.isDigit then some (letters ++ ws2 ++ [d1, d2])
                else none
              | _ => none
      | _ => none
    else none

/-- A line that ends the block scan: date heading or known event title. -/
def metBoundary (ttl : List (PyStr × List PyStr)) (l : PyStr) : Bool :=
  (dateHeadingMatch l).isSome || (dictLookup ttl l).isSome

/-- The block accumulator: title, its first link, and the three first-match
slots of the inner scan. -/
structure MetBlock where
  title : PyStr
  source_url : PyStr
  description : Option PyStr
  time_line : Option PyStr
  price_line : Option PyStr
deriving DecidableEq, Repr

/-- One inner-scan line: first non-time non-price line becomes the
description, first `TIME_LOCATION_RE` line the time, first price-looking
line the price. -/
def metUpdateBlock (b : MetBlock) (l : PyStr) : MetBlock :=
  { b with
    description :=
      if b.description = none ∧ timeLocationMatch l = none ∧
          looks_like_price l = false then some l
      else b.description
    time_line :=
      if b.time_line = none ∧ (timeLocationMatch l).isSome then some l
      else b.time_line
    price_line :=
      if b.price_line = none ∧ looks_like_price l then some l
      else b.price_line }

/-- One attempt of met's `AGE_RE`
(`Ages?\\s*(\\d{1,2})\\s*[-–]\\s*(\\d{1,2})`, IGNORECASE, no boundary
assertions) at a position. -/
def tryMetAge (s : PyStr) : Option (Nat × Nat) :=
  (ageKeyword s).findSome? fun r =>
    (takeDigits2 (dropSpacesRe r)).findSome? fun p =>
      match dropSpacesRe p.2 with
      | c :: r2 =>
        if c = '-' ∨ c = '–' then
          (takeDigits2 (dropSpacesRe r2)).findSome? fun q => some (p.1, q.1)
        else none
      | [] => none

/-- `AGE_RE.search`. -/
def searchMetAge : PyStr → Option (Nat × Nat)
  | [] => none
  | c :: rest =>
    match tryMetAge (c :: rest) with
    | some v => some v
    | none => searchMetAge rest

/-- `_parse_age_range` of `src/crawlers/adapters/met.py`. -/
def met_parse_age_range (title : PyStr) (description : Option PyStr) :
    Option Nat × Option Nat :=
  let blob :=
    match description with
    | none => title
    | some d => if d.isEmpty then title else title ++ " ".toList ++ d
  match searchMetAge blob with
  | none => (none, none)
  | some p => (some p.1, some p.2)

/-- The row appended for a surviving block.  `start_at` uses
`_parse_start_datetime`; its (practically dead) `ValueError` branch is
papered over with a placeholder default rather than threaded as an
exception. -/
def metBuildRow (now : DT) (cursor : Option DT) (b : MetBlock) :
    ExtractedActivity :=
  let normalized_description :=
    match b.description, b.time_line with
    | some d, some t => some (d ++ " | ".toList ++ t)
    | none, some t => some t
    | d, none => d
  let normalized_description2 :=
    match normalized_description, b.price_line with
    | some d, some p => some (d ++ " | ".toList ++ p)
    | none, some p => some p
    | d, none => d
  let lower_blob := pyLower (b.title ++ " ".toList ++ (b.description.getD []))
  { source_url := b.source_url
    title := b.title
    description := normalized_description2
    venue_name := some ("The Metropolitan Museum of Art".toList)
    location_text := some ("New York, NY".toList)
    city := some ("New York".toList)
    state := some ("NY".toList)
    activity_type := some ("workshop".toList)
    age_min := (met_parse_age_range b.title b.description).1
    age_max := (met_parse_age_range b.title b.description).2
    drop_in := some (pyContains lower_blob ("drop-in".toList) ||
      pyContains lower_blob ("drop in".toList))
    registration_required := some (pyContains lower_blob ("registration required".toList))
    start_at := (met_parse_start_datetime cursor b.time_line now).getD
      ⟨1900, 1, 1, 0, 0, 0, none⟩
    end_at := none
    timezone := "America/New_York".toList
    free_verification_status :=
      if b.price_line.isSome then "confirmed".toList else "inferred".toList }

/-- Free-only rule applied when a block is flushed: a present price line
not containing "free" (case-insensitive) drops the block. -/
def metFlush (now : DT) (cursor : Option DT) (b : MetBlock) :
    List ExtractedActivity :=
  match b.price_line with
  | some p =>
    if pyContains (pyLower p) ("free".toList) then [metBuildRow now cursor b]
    else []
  | none => [metBuildRow now cursor b]

/-- Handling of a line met outside a block: date heading moves the cursor,
a known non-irrelevant title opens a block (with its first link), anything
else is skipped. -/
def metClassify (ttl : List (PyStr × List PyStr)) (parseHeading : PyStr → DT)
    (cursor : Option DT) (l : PyStr) : Option DT × Option MetBlock :=
  match dateHeadingMatch l with
  | some label => (some (parseHeading label), none)
  | none =>
    match dictLookup ttl l with
    | some links =>
      if is_irrelevant_item_text (some l) then (cursor, none)
      else (cursor, some ⟨l, links.headD [], none, none, none⟩)
    | none => (cursor, none)

/-- The fallback line loop. -/
def metLinesStep (ttl : List (PyStr × List PyStr)) (parseHeading : PyStr → DT)
    (now : DT) : Option DT → Option MetBlock → List PyStr → List ExtractedActivity
  | _, none, [] => []
  | cursor, some b, [] => metFlush now cursor b
  | cursor, none, l :: rest =>
    let s := metClassify ttl parseHeading cursor l
    metLinesStep ttl parseHeading now s.1 s.2 rest
  | cursor, some b, l :: rest =>
    if metBoundary ttl l then
      let s := metClassify ttl parseHeading cursor l
      metFlush now cursor b ++ metLinesStep ttl parseHeading now s.1 s.2 rest
    else metLinesStep ttl parseHeading now cursor (some (metUpdateBlock b l)) rest

/-- Witness inputs for the Met fallback: two known titles. -/
def c6Ttl : List (PyStr × List PyStr) :=
  [("Teen Studio".toList, [("https://engage.metmuseum.org/e/1".toList)]),
   ("Clay Lab".toList, [("https://engage.metmuseum.org/e/2".toList)])]

def c6Heading : PyStr → DT := fun _ => ⟨2026, 7, 1, 0, 0, 0, none⟩

def c6Now : DT := ⟨2026, 6, 1, 12, 0, 0, none⟩

/-- The lines after the "Teen Studio" title: its block then the next
block. -/
def c6RestA : List PyStr :=
  ["Paint with artists".toList, "3:00 PM Studio 1".toList,
   "$12 per person".toList, "Clay Lab".toList, "Hands on clay".toList,
   "Free with admission".toList]

/-- The lines after the "Clay Lab" title. -/
def c6RestB : List PyStr :=
  ["Hands on clay".toList, "Free with admission".toList]

/-! ### Strategy ordering of the top-level parse functions (C3)

`parse_mfa_events_html`, `parse_whitney_events_html` and
`parse_moma_events_html` each read
`rows = _parse_from_json_payloads(...); if rows: return rows;
return _parse_from_dom_fallback(...)`.  The two strategies run
BeautifulSoup over the page and are taken as parameters over an abstract
page type; the cited dispatch lines are what is modelled. -/
/-- `parse_mfa_events_html` (`src/crawlers/adapters/mfa.py`). -/
def parse_mfa_events_html {Html : Type}
    (json_payloads dom_fallback : Html → List ExtractedActivity)
    (html : Html) : List ExtractedActivity :=
  let rows := json_payloads html
  if rows.isEmpty then dom_fallback html else rows

/-- `parse_whitney_events_html` (`src/crawlers/adapters/whitney.py`). -/
def parse_whitney_events_html {Html : Type}
    (json_payloads dom_fallback : Html → List ExtractedActivity)
    (html : Html) : List ExtractedActivity :=
  let rows := json_payloads html
  if rows.isEmpty then dom_fallback html else rows

/-- `parse_moma_events_html` (`src/crawlers/adapters/moma.py`); the
audience and `now` thread through to the strategies. -/
def parse_moma_events_html {Html : Type}
    (json_payloads : Html → PyStr → List ExtractedActivity)
    (dom_fallback : Html → PyStr → Option DT → List ExtractedActivity)
    (html : Html) (audience : PyStr) (now : Option DT) :
    List ExtractedActivity :=
  let rows := json_payloads html audience
  if rows.isEmpty then dom_fallback html audience now else rows

/-- A structured-payload row for the C3 witness. -/
def c3Item : ExtractedActivity :=
  { c7cA with title := "Json Workshop".toList }

/-- A DOM-fallback row for the C3 witness. -/
def c3DomItem : ExtractedActivity :=
  { c7cA with title := "Dom Workshop".toList }

/-! ### Theorems -/

/-- Emptiness of the stripped string is unaffected by lower-casing. -/
theorem pyLower_eq_nil_iff (s : PyStr) : pyLower s = [] ↔ s = [] := by
  simp [pyLower]

/-- C9: `is_irrelevant_item_text` returns `true` exactly on absent, empty or
whitespace-only values and on text whose trimmed lower-cased form equals one
of the fixed keywords or begins with such a keyword followed by a space. -/
theorem c9_is_irrelevant_item_text_iff (value : Option PyStr) :
    is_irrelevant_item_text value = true ↔ irrelevantPerClaim value := by
  cases value with
  | none => simp [is_irrelevant_item_text, irrelevantPerClaim]
  | some s =>
    simp only [is_irrelevant_item_text, irrelevantPerClaim]
    by_cases hnil : s = []
    · subst hnil
      simp [pyStrip]
    · simp only [List.isEmpty_iff, hnil, if_false]
      by_cases hstrip : pyStrip s = []
      · simp [hstrip, pyLower, hnil]
      · have hlow : ¬ pyLower (pyStrip s) = [] := by
          simpa [pyLower_eq_nil_iff] using hstrip
        simp [List.isEmpty_iff, hlow, hstrip, List.any_eq_true,
          Bool.or_eq_true_iff, decide_eq_true_eq]

/-! ### Lemmas about the dict model -/
theorem dictAny_iff_lookup_isSome {κ α : Type} [DecidableEq κ]
    (d : List (κ × α)) (k : κ) :
    d.any (fun p => p.1 = k) = (dictLookup d k).isSome := by
  induction d with
  | nil => rfl
  | cons p d ih =>
    by_cases hp : p.1 = k <;> simp [dictLookup, hp, ih]

theorem dictLookup_append {κ α : Type} [DecidableEq κ]
    (d₁ d₂ : List (κ × α)) (k : κ) :
    dictLookup (d₁ ++ d₂) k = (dictLookup d₁ k).or (dictLookup d₂ k) := by
  induction d₁ with
  | nil => simp [dictLookup]
  | cons p d ih =>
    by_cases hp : p.1 = k <;> simp [dictLookup, hp, ih]

theorem dictLookup_map_replace {κ α : Type} [DecidableEq κ]
    (d : List (κ × α)) (k : κ) (v : α) :
    dictLookup (d.map (fun p => if p.1 = k then (p.1, v) else p)) k
      = if (dictLookup d k).isSome then some v else none := by
  induction d with
  | nil => rfl
  | cons p d ih =>
    by_cases hp : p.1 = k
    · simp [dictLookup, hp]
    · simpa [dictLookup, hp] using ih

theorem dictLookup_dictInsert_self {κ α : Type} [DecidableEq κ]
    (k : κ) (v : α) (d : List (κ × α)) :
    dictLookup (dictInsert k v d) k = some v := by
  unfold dictInsert
  split
  case isTrue h =>
    rw [dictLookup_map_replace]
    rw [dictAny_iff_lookup_isSome] at h
    simp [h]
  case isFalse h =>
    rw [dictAny_iff_lookup_isSome] at h
    rw [dictLookup_append]
    cases hd : dictLookup d k with
    | none => simp [dictLookup]
    | some v' => rw [hd] at h; simp at h

theorem dictLookup_map_replace_ne {κ α : Type} [DecidableEq κ]
    (d : List (κ × α)) (k k' : κ) (v : α) (hk : k' ≠ k) :
    dictLookup (d.map (fun p => if p.1 = k then (p.1, v) else p)) k'
      = dictLookup d k' := by
  induction d with
  | nil => rfl
  | cons p d ih =>
    rw [List.map_cons]
    by_cases hp : p.1 = k
    · have hpk' : ¬ p.1 = k' := fun hc => hk (hc.symm.trans hp)
      rw [if_pos hp]
      simp only [dictLookup]
      rw [if_neg hpk', if_neg hpk']
      exact ih
    · rw [if_neg hp]
      simp only [dictLookup]
      by_cases hpk' : p.1 = k'
      · rw [if_pos hpk', if_pos hpk']
      · rw [if_neg hpk', if_neg hpk']
        exact ih

theorem dictLookup_dictInsert_ne {κ α : Type} [DecidableEq κ]
    (k k' : κ) (v : α) (d : List (κ × α)) (hk : k' ≠ k) :
    dictLookup (dictInsert k v d) k' = dictLookup d k' := by
  unfold dictInsert
  split
  · exact dictLookup_map_replace_ne d k k' v hk
  · rw [dictLookup_append]
    have hkk : ¬ k = k' := fun hc => hk hc.symm
    have hsingle : dictLookup [(k, v)] k' = none := by
      simp [dictLookup, hkk]
    rw [hsingle, Option.or_none]

theorem getLast?_cons_or {α : Type} (x : α) (xs : List α) :
    (x :: xs).getLast? = xs.getLast?.or (some x) := by
  cases xs with
  | nil => rfl
  | cons y ys =>
    rw [List.getLast?_cons_cons]
    cases hys : (y :: ys).getLast? with
    | none => simp [List.getLast?_eq_none_iff] at hys
    | some z => rfl

/-- Looking up the dict built by repeated insertion of `(key a, a)`: the last
matching element of the list wins, falling back to the initial dict. -/
theorem dictLookup_foldl_insert {κ α : Type} [DecidableEq κ]
    (key : α → κ) (l : List α) (d : List (κ × α)) (k : κ) :
    dictLookup (l.foldl (fun d a => dictInsert (key a) a d) d) k
      = ((l.filter (fun a => key a = k)).getLast?).or (dictLookup d k) := by
  induction l generalizing d with
  | nil => simp
  | cons a l ih =>
    rw [List.foldl_cons, ih]
    by_cases hk : key a = k
    · rw [hk, dictLookup_dictInsert_self]
      have hfil : (a :: l).filter (fun a => key a = k) = a :: l.filter (fun a => key a = k) := by
        simp [List.filter_cons, hk]
      rw [hfil, getLast?_cons_or, Option.or_assoc]
      congr 1
    · rw [dictLookup_dictInsert_ne _ _ _ _ (fun h => hk h.symm)]
      have hfil : (a :: l).filter (fun a => key a = k) = l.filter (fun a => key a = k) := by
        simp [List.filter_cons, hk]
      rw [hfil]

/-- When every entry of a dict is of the form `(key v, v)` and keys are not
duplicated, the values whose key is `k` are exactly the looked-up value. -/
theorem dictValues_filter_of_consistent {κ α : Type} [DecidableEq κ]
    (key : α → κ) (d : List (κ × α)) (k : κ)
    (hcons : ∀ p ∈ d, p.1 = key p.2) (hnodup : (d.map (·.1)).Nodup) :
    (d.map (·.2)).filter (fun a => key a = k) = (dictLookup d k).toList := by
  induction d with
  | nil => rfl
  | cons p d ih =>
    have hp : p.1 = key p.2 := hcons p (List.mem_cons_self p d)
    have hcons' : ∀ q ∈ d, q.1 = key q.2 := fun q hq => hcons q (by simp [hq])
    rw [List.map_cons] at hnodup
    have hnd := List.nodup_cons.mp hnodup
    by_cases hpk : key p.2 = k
    · have hpk1 : p.1 = k := hp.trans hpk
      have hrest : (d.map (·.2)).filter (fun a => key a = k) = [] := by
        rw [List.filter_eq_nil_iff]
        intro b hb
        rcases List.mem_map.mp hb with ⟨q, hq, rfl⟩
        simp only [decide_eq_true_eq]
        intro hqk
        apply hnd.1
        have h1 : q.1 = k := (hcons' q hq).trans hqk
        rw [hpk1, ← h1]
        exact List.mem_map_of_mem (·.1) hq
      simp [List.filter_cons, hpk, dictLookup, hpk1, hrest]
    · have hpk1 : ¬ p.1 = k := fun hc => hpk (hp.symm.trans hc)
      have := ih hcons' hnd.2
      simpa [List.filter_cons, hpk, dictLookup, hpk1] using this

/-- The dict built by repeated insertion of `(key a, a)` entries stays
consistent with duplicate-free keys. -/
theorem foldl_insert_consistent {κ α : Type} [DecidableEq κ]
    (key : α → κ) (l : List α) (d : List (κ × α))
    (hcons : ∀ p ∈ d, p.1 = key p.2) (hnodup : (d.map (·.1)).Nodup) :
    (∀ p ∈ l.foldl (fun d a => dictInsert (key a) a d) d, p.1 = key p.2) ∧
      ((l.foldl (fun d a => dictInsert (key a) a d) d).map (·.1)).Nodup := by
  induction l generalizing d with
  | nil => exact ⟨hcons, hnodup⟩
  | cons a l ih =>
    rw [List.foldl_cons]
    apply ih
    · intro p hp
      unfold dictInsert at hp
      split at hp
      · rcases List.mem_map.mp hp with ⟨q, hq, rfl⟩
        by_cases hq1 : q.1 = key a
        · simp [hq1]
        · simp only [hq1, if_false]
          exact hcons q hq
      · rcases List.mem_append.mp hp with hq | hq
        · exact hcons p hq
        · simp only [List.mem_singleton] at hq
          subst hq
          rfl
    · unfold dictInsert
      split
      case isTrue h =>
        have heq : (d.map (fun p => if p.1 = key a then (p.1, a) else p)).map (·.1)
            = d.map (·.1) := by
          rw [List.map_map]
          apply List.map_congr_left
          intro p _
          by_cases hpk : p.1 = key a <;> simp [hpk]
        rw [heq]; exact hnodup
      case isFalse h =>
        rw [List.map_append]
        simp only [List.map_cons, List.map_nil]
        rw [List.nodup_append]
        refine ⟨hnodup, List.nodup_singleton _, ?_⟩
        intro x hx
        simp only [List.mem_singleton]
        intro hxk
        subst hxk
        rcases List.mem_map.mp hx with ⟨q, hq, hqk⟩
        have : d.any (fun p => p.1 = key a) = true :=
          List.any_eq_true.mpr ⟨q, hq, by simp [hqk]⟩
        rw [this] at h
        simp at h

/-! ### C2: the upsert returns the last-write-wins deduplication of its input -/
/-- Both exits of the upsert return the dict-deduplicated batch. -/
theorem upsert_returns_dedupe (source_url : PyStr)
    (extracted : List ExtractedActivity) (adapter_type : PyStr) (now : DT)
    (db : DB) :
    (upsert_extracted_activities source_url extracted adapter_type now db).2
      = dedupeByKey identityKey extracted := by
  simp only [upsert_extracted_activities]
  split <;> rfl

/-- C2: for every identity key, the batch returned by
`upsert_extracted_activities` contains exactly the last input candidate with
that key (and nothing for keys absent from the input): the result is the
input deduplicated by identity key, last write wins. -/
theorem c2_upsert_returns_last_write_dedup (source_url : PyStr)
    (extracted : List ExtractedActivity) (adapter_type : PyStr) (now : DT)
    (db : DB) (k : IdentityKey) :
    ((upsert_extracted_activities source_url extracted adapter_type now db).2).filter
        (fun a => identityKey a = k)
      = ((extracted.filter (fun a => identityKey a = k)).getLast?).toList := by
  rw [upsert_returns_dedupe]
  unfold dedupeByKey
  have hfold := foldl_insert_consistent identityKey extracted [] (by simp) (by simp)
  rw [dictValues_filter_of_consistent identityKey _ k hfold.1 hfold.2]
  rw [dictLookup_foldl_insert]
  simp [dictLookup]

/-! ### C10: totality of `_to_free_status` and the status written to rows -/
/-- Venue resolution never touches the activities table. -/
theorem resolve_venues_activities (db : DB) (e : List ExtractedActivity) :
    ((resolve_venues db e).1).activities = db.activities := by
  simp only [resolve_venues]
  split <;> rfl

/-- Source resolution never touches the activities table. -/
theorem resolveSource_activities (db : DB) (u a : PyStr) :
    ((resolveSource db u a).1).activities = db.activities := by
  unfold resolveSource
  cases hb : pickLongest (db.sources.filter (sourceMatches u)) <;> simp [hb]

/-- Every row present after the upsert loop either satisfies the invariant of
the starting table or carries the free-verification status computed by
`_to_free_status` from one of the processed candidates. -/
theorem processItem_fold_status (sid : Nat)
    (ebk : List (IdentityKey × ActivityRow)) (vbk : List (VenueKey × VenueRow))
    (now : DT) (items : List ExtractedActivity) :
    ∀ (acts : List ActivityRow) (nid : Nat) (P : ActivityRow → Prop),
      (∀ a ∈ acts, P a) →
      ∀ a ∈ (items.foldl (processItem sid ebk vbk now) (acts, nid)).1,
        P a ∨ ∃ item ∈ items,
          a.free_verification_status = to_free_status item.free_verification_status := by
  induction items with
  | nil =>
    intro acts nid P hP a ha
    exact Or.inl (hP a (by simpa using ha))
  | cons it rest ih =>
    intro acts nid P hP a ha
    rw [List.foldl_cons] at ha
    have hstep : ∀ b ∈ (processItem sid ebk vbk now (acts, nid) it).1,
        P b ∨ b.free_verification_status = to_free_status it.free_verification_status := by
      intro b hb
      unfold processItem at hb
      cases hcur : dictLookup ebk (identityKey it) with
      | none =>
        rw [hcur] at hb
        simp only [List.mem_append, List.mem_singleton] at hb
        rcases hb with hb | hb
        · exact Or.inl (hP b hb)
        · subst hb
          exact Or.inr rfl
      | some cur =>
        rw [hcur] at hb
        simp only [List.mem_map] at hb
        rcases hb with ⟨c, hc, rfl⟩
        by_cases hid : c.id = cur.id
        · simp only [hid, if_true]
          exact Or.inr rfl
        · simp only [hid, if_false]
          exact Or.inl (hP c hc)
    have hrest := ih (processItem sid ebk vbk now (acts, nid) it).1
      (processItem sid ebk vbk now (acts, nid) it).2
      (fun b => P b ∨ b.free_verification_status = to_free_status it.free_verification_status)
      hstep a ha
    rcases hrest with (hb | hb) | ⟨item, hitem, hstatus⟩
    · exact Or.inl hb
    · exact Or.inr ⟨it, List.mem_cons_self it rest, hb⟩
    · exact Or.inr ⟨item, List.mem_cons_of_mem it hitem, hstatus⟩

/-- C10: `_to_free_status` is total: it maps the three enum value strings to
their members and every other string to `inferred`; consequently every
activity row present after an upsert either predates the call or carries the
status `_to_free_status` computed from one of the deduplicated candidates
(so it is always one of the three enum members). -/
theorem c10_to_free_status_total :
    to_free_status ("confirmed".toList) = FreeVerificationStatus.confirmed ∧
    to_free_status ("inferred".toList) = FreeVerificationStatus.inferred ∧
    to_free_status ("uncertain".toList) = FreeVerificationStatus.uncertain ∧
    (∀ v : PyStr, v ≠ "confirmed".toList → v ≠ "inferred".toList →
      v ≠ "uncertain".toList → to_free_status v = FreeVerificationStatus.inferred) ∧
    (∀ (source_url : PyStr) (extracted : List ExtractedActivity)
        (adapter_type : PyStr) (now : DT) (db : DB) (a : ActivityRow),
      a ∈ ((upsert_extracted_activities source_url extracted adapter_type now db).1).activities →
      a ∈ db.activities ∨ ∃ item ∈ dedupeByKey identityKey extracted,
        a.free_verification_status = to_free_status item.free_verification_status) := by
  refine ⟨rfl, rfl, rfl, ?_, ?_⟩
  · intro v h1 h2 h3
    unfold to_free_status
    rw [if_neg h1, if_neg h2, if_neg h3]
  · intro source_url extracted adapter_type now db a ha
    simp only [upsert_extracted_activities] at ha
    split at ha
    · exact Or.inl ha
    · have hact :
          ((resolve_venues (resolveSource db source_url adapter_type).1
              (dedupeByKey identityKey extracted)).1).activities = db.activities := by
        rw [resolve_venues_activities, resolveSource_activities]
      exact processItem_fold_status
        (resolveSource db source_url adapter_type).2.id
        ((existingItems (resolveSource db source_url adapter_type).1
            (resolveSource db source_url adapter_type).2.id
            (dedupFirst ((dedupeByKey identityKey extracted).map identityKey))).foldl
          (fun m a => dictInsert (rowKey a) a m) [])
        ((resolve_venues (resolveSource db source_url adapter_type).1
            (dedupeByKey identityKey extracted)).2)
        now
        (dedupeByKey identityKey extracted)
        ((resolve_venues (resolveSource db source_url adapter_type).1
            (dedupeByKey identityKey extracted)).1).activities
        ((resolve_venues (resolveSource db source_url adapter_type).1
            (dedupeByKey identityKey extracted)).1).nextActivityId
        (fun b => b ∈ db.activities)
        (by rw [hact]; exact fun b hb => hb)
        a ha

/-! ### Infrastructure for the idempotence and venue claims -/
theorem dictInsert_keys_nodup {κ α : Type} [DecidableEq κ]
    (k : κ) (v : α) (d : List (κ × α)) (h : (d.map (·.1)).Nodup) :
    ((dictInsert k v d).map (·.1)).Nodup := by
  unfold dictInsert
  split
  case isTrue _ =>
    have heq : (d.map (fun p => if p.1 = k then (p.1, v) else p)).map (·.1)
        = d.map (·.1) := by
      rw [List.map_map]
      apply List.map_congr_left
      intro p _
      by_cases hpk : p.1 = k <;> simp [hpk]
    rw [heq]; exact h
  case isFalse hany =>
    rw [List.map_append]
    simp only [List.map_cons, List.map_nil]
    rw [List.nodup_append]
    refine ⟨h, List.nodup_singleton _, ?_⟩
    intro x hx
    simp only [List.mem_singleton]
    intro hxk
    subst hxk
    rcases List.mem_map.mp hx with ⟨q, hq, hqk⟩
    exact hany (List.any_eq_true.mpr ⟨q, hq, by simp [hqk]⟩)

theorem dictInsert_mem {κ α : Type} [DecidableEq κ]
    (k : κ) (v : α) (d : List (κ × α)) (p : κ × α) (hp : p ∈ dictInsert k v d) :
    p ∈ d ∨ p.2 = v := by
  unfold dictInsert at hp
  split at hp
  · rcases List.mem_map.mp hp with ⟨q, hq, rfl⟩
    by_cases hq1 : q.1 = k
    · simp [hq1]
    · simp only [hq1, if_false]
      exact Or.inl hq
  · rcases List.mem_append.mp hp with hq | hq
    · exact Or.inl hq
    · simp only [List.mem_singleton] at hq
      subst hq
      exact Or.inr rfl

/-- Values of the dedup dict come from the input list. -/
theorem foldl_insert_values_subset {κ α : Type} [DecidableEq κ]
    (key : α → κ) (l : List α) :
    ∀ (d : List (κ × α)) (p : κ × α),
      p ∈ l.foldl (fun d a => dictInsert (key a) a d) d → p ∈ d ∨ p.2 ∈ l := by
  induction l with
  | nil => intro d p hp; exact Or.inl hp
  | cons a l ih =>
    intro d p hp
    rw [List.foldl_cons] at hp
    rcases ih (dictInsert (key a) a d) p hp with hd | hl
    · rcases dictInsert_mem _ _ _ _ hd with hd | hv
      · exact Or.inl hd
      · exact Or.inr (by rw [hv]; exact List.mem_cons_self a l)
    · exact Or.inr (List.mem_cons_of_mem a hl)

/-- Elements of the deduplicated batch come from the input batch. -/
theorem dedupeByKey_subset (l : List ExtractedActivity) :
    ∀ a ∈ dedupeByKey identityKey l, a ∈ l := by
  intro a ha
  unfold dedupeByKey at ha
  rcases List.mem_map.mp ha with ⟨p, hp, rfl⟩
  rcases foldl_insert_values_subset identityKey l [] p hp with hd | hl
  · simp at hd
  · exact hl

/-- The identity keys of the deduplicated batch carry no duplicates. -/
theorem dedupeByKey_keys_nodup (l : List ExtractedActivity) :
    ((dedupeByKey identityKey l).map identityKey).Nodup := by
  unfold dedupeByKey
  have hfold := foldl_insert_consistent identityKey l [] (by simp) (by simp)
  have heq : ((l.foldl (fun d a => dictInsert (identityKey a) a d) []).map (·.2)).map identityKey
      = (l.foldl (fun d a => dictInsert (identityKey a) a d) []).map (·.1) := by
    rw [List.map_map]
    apply List.map_congr_left
    intro p hp
    exact (hfold.1 p hp).symm
  rw [heq]
  exact hfold.2

/-- `dedupFirst` leaves a duplicate-free list unchanged. -/
theorem dedupFirst_of_nodup {α : Type} [DecidableEq α] (l : List α)
    (h : l.Nodup) : dedupFirst l = l := by
  unfold dedupFirst
  suffices haux : ∀ (acc : List α), acc.Nodup → (∀ x ∈ l, x ∉ acc) → l.Nodup →
      l.foldl (fun acc x => if x ∈ acc then acc else acc ++ [x]) acc = acc ++ l by
    simpa using haux [] (List.nodup_nil) (by simp) h
  clear h
  induction l with
  | nil => intro acc _ _ _; simp
  | cons a l ih =>
    intro acc hacc hdisj hnd
    rw [List.foldl_cons, if_neg (hdisj a (List.mem_cons_self a l))]
    rw [List.nodup_cons] at hnd
    have hacc' : (acc ++ [a]).Nodup := by
      rw [List.nodup_append]
      refine ⟨hacc, List.nodup_singleton _, ?_⟩
      intro x hx
      simp only [List.mem_singleton]
      intro hxa
      exact hdisj a (List.mem_cons_self a l) (hxa ▸ hx)
    have hdisj' : ∀ x ∈ l, x ∉ acc ++ [a] := by
      intro x hx
      rw [List.mem_append, List.mem_singleton]
      rintro (hxacc | hxa)
      · exact hdisj x (List.mem_cons_of_mem a hx) hxacc
      · subst hxa
        exact hnd.1 hx
    rw [ih (acc ++ [a]) hacc' hdisj' hnd.2]
    simp

/-- In a list whose keys are duplicate-free, filtering on the key of a member
yields exactly that member. -/
theorem filter_key_of_nodup {α κ : Type} [DecidableEq κ] (key : α → κ)
    (l : List α) (hnd : (l.map key).Nodup) (r : α) (hr : r ∈ l) :
    l.filter (fun a => key a = key r) = [r] := by
  induction l with
  | nil => simp at hr
  | cons b l ih =>
    rw [List.map_cons, List.nodup_cons] at hnd
    rcases List.mem_cons.mp hr with rfl | hr'
    · have hrest : l.filter (fun a => key a = key r) = [] := by
        rw [List.filter_eq_nil_iff]
        intro a ha
        simp only [decide_eq_true_eq]
        intro hk
        exact hnd.1 (hk ▸ List.mem_map_of_mem key ha)
      simp [List.filter_cons, hrest]
    · have hbr : ¬ key b = key r := by
        intro hk
        exact hnd.1 (hk ▸ List.mem_map_of_mem key hr')
      rw [List.filter_cons, if_neg (by simpa using hbr)]
      exact ih hnd.2 hr'

/-- Every element of a chunk produced by `chunked` belongs to the input. -/
theorem chunked_mem_subset {α : Type} (l : List α) (n : Nat) (ch : List α)
    (hch : ch ∈ chunked l n) : ∀ x ∈ ch, x ∈ l := by
  unfold chunked at hch
  rcases List.mem_map.mp hch with ⟨i, _, rfl⟩
  intro x hx
  exact List.drop_subset _ _ (List.take_subset _ _ hx)

/-- With no stored row carrying any of the looked-up keys, the chunked
existing-rows query is empty. -/
theorem existingItems_eq_nil (db : DB) (sid : Nat) (keys : List IdentityKey)
    (h : ∀ a ∈ db.activities, rowKey a ∉ keys) :
    existingItems db sid keys = [] := by
  unfold existingItems
  rw [List.flatten_eq_nil_iff]
  intro xs hxs
  rcases List.mem_map.mp hxs with ⟨ch, hch, rfl⟩
  rw [List.filter_eq_nil_iff]
  intro a ha
  simp only [decide_eq_true_eq, not_and]
  intro _
  intro hk
  exact h a ha (chunked_mem_subset _ _ _ hch _ hk)

theorem insertedRows_map_rowKey (sid : Nat) (vbk : List (VenueKey × VenueRow))
    (now : DT) (items : List ExtractedActivity) :
    ∀ nid, (insertedRows sid vbk now items nid).map rowKey = items.map identityKey := by
  induction items with
  | nil => intro nid; rfl
  | cons it rest ih =>
    intro nid
    simp only [insertedRows, List.map_cons, ih]
    rfl

theorem insertedRows_mem (sid : Nat) (vbk : List (VenueKey × VenueRow))
    (now : DT) (items : List ExtractedActivity) :
    ∀ nid r, r ∈ insertedRows sid vbk now items nid →
      ∃ it ∈ items, r = mkActivityRow r.id sid (venueFor vbk it) now it := by
  induction items with
  | nil => intro nid r hr; simp [insertedRows] at hr
  | cons it rest ih =>
    intro nid r hr
    rcases List.mem_cons.mp hr with rfl | hr'
    · exact ⟨it, List.mem_cons_self it rest, rfl⟩
    · rcases ih (nid + 1) r hr' with ⟨it', hit', hmk⟩
      exact ⟨it', List.mem_cons_of_mem it hit', hmk⟩

theorem insertedRows_map_id (sid : Nat) (vbk : List (VenueKey × VenueRow))
    (now : DT) (items : List ExtractedActivity) :
    ∀ nid, (insertedRows sid vbk now items nid).map (·.id)
      = List.range' nid items.length := by
  induction items with
  | nil => intro nid; rfl
  | cons it rest ih =>
    intro nid
    simp only [insertedRows, List.map_cons, ih, List.length_cons]
    rfl

/-- Loop characterization, insert case: when no candidate matches an existing
row, the loop appends one freshly numbered row per candidate. -/
theorem processItem_fold_all_insert (sid : Nat)
    (ebk : List (IdentityKey × ActivityRow)) (vbk : List (VenueKey × VenueRow))
    (now : DT) (items : List ExtractedActivity)
    (hmiss : ∀ item ∈ items, dictLookup ebk (identityKey item) = none) :
    ∀ (acts : List ActivityRow) (nid : Nat),
      items.foldl (processItem sid ebk vbk now) (acts, nid)
        = (acts ++ insertedRows sid vbk now items nid, nid + items.length) := by
  induction items with
  | nil => intro acts nid; simp [insertedRows]
  | cons it rest ih =>
    intro acts nid
    rw [List.foldl_cons]
    have hstep : processItem sid ebk vbk now (acts, nid) it
        = (acts ++ [mkActivityRow nid sid (venueFor vbk it) now it], nid + 1) := by
      unfold processItem
      rw [hmiss it (List.mem_cons_self it rest)]
      rfl
    rw [hstep, ih (fun item h => hmiss item (List.mem_cons_of_mem it h))]
    simp only [insertedRows, List.append_assoc, List.singleton_append,
      List.length_cons]
    exact congrArg (Prod.mk _) (by omega)

/-- Loop characterization, update case: when every candidate matches an
existing row, the loop is a pointwise rewrite of the stored rows and the id
counter does not move. -/
theorem processItem_fold_all_update (sid : Nat)
    (ebk : List (IdentityKey × ActivityRow)) (vbk : List (VenueKey × VenueRow))
    (now : DT) (items : List ExtractedActivity)
    (hhit : ∀ item ∈ items, (dictLookup ebk (identityKey item)).isSome) :
    ∀ (acts : List ActivityRow) (nid : Nat),
      items.foldl (processItem sid ebk vbk now) (acts, nid)
        = (acts.map (updFun ebk vbk now items), nid) := by
  induction items with
  | nil => intro acts nid; simp [updFun]
  | cons it rest ih =>
    intro acts nid
    rw [List.foldl_cons]
    obtain ⟨cur, hcur⟩ := Option.isSome_iff_exists.mp (hhit it (List.mem_cons_self it rest))
    have hstep : processItem sid ebk vbk now (acts, nid) it
        = (acts.map (fun a =>
            if a.id = cur.id then updateActivityRow (venueFor vbk it) now it a else a),
           nid) := by
      unfold processItem
      rw [hcur]
      rfl
    rw [hstep, ih (fun item h => hhit item (List.mem_cons_of_mem it h)), List.map_map]
    have hfun : (updFun ebk vbk now rest ∘ fun a =>
        if a.id = cur.id then updateActivityRow (venueFor vbk it) now it a else a)
        = updFun ebk vbk now (it :: rest) := by
      funext a
      show updFun ebk vbk now rest _ = updFun ebk vbk now (it :: rest) a
      simp only [updFun, hcur]
    rw [hfun]

/-- Unfolding `updFun` when the head candidate has a match. -/
theorem updFun_cons_some (ebk : List (IdentityKey × ActivityRow))
    (vbk : List (VenueKey × VenueRow)) (now : DT) (it : ExtractedActivity)
    (rest : List ExtractedActivity) (cur : ActivityRow)
    (hcur : dictLookup ebk (identityKey it) = some cur) (a : ActivityRow) :
    updFun ebk vbk now (it :: rest) a
      = updFun ebk vbk now rest
          (if a.id = cur.id then updateActivityRow (venueFor vbk it) now it a else a) := by
  simp only [updFun, hcur]

/-- Unfolding `updFun` when the head candidate has no match. -/
theorem updFun_cons_none (ebk : List (IdentityKey × ActivityRow))
    (vbk : List (VenueKey × VenueRow)) (now : DT) (it : ExtractedActivity)
    (rest : List ExtractedActivity)
    (hcur : dictLookup ebk (identityKey it) = none) (a : ActivityRow) :
    updFun ebk vbk now (it :: rest) a = updFun ebk vbk now rest a := by
  simp only [updFun, hcur]

/-- The whole-loop rewrite preserves id, source id, identity fields and
`first_seen_at`. -/
theorem updFun_preserves (ebk : List (IdentityKey × ActivityRow))
    (vbk : List (VenueKey × VenueRow)) (now : DT)
    (items : List ExtractedActivity) :
    ∀ a : ActivityRow,
      (updFun ebk vbk now items a).id = a.id ∧
      (updFun ebk vbk now items a).source_id = a.source_id ∧
      rowKey (updFun ebk vbk now items a) = rowKey a ∧
      (updFun ebk vbk now items a).first_seen_at = a.first_seen_at := by
  induction items with
  | nil => intro a; exact ⟨rfl, rfl, rfl, rfl⟩
  | cons it rest ih =>
    intro a
    cases hcur : dictLookup ebk (identityKey it) with
    | none =>
      rw [updFun_cons_none ebk vbk now it rest hcur]
      exact ih a
    | some cur =>
      rw [updFun_cons_some ebk vbk now it rest cur hcur]
      by_cases hid : a.id = cur.id
      · rw [if_pos hid]
        have h := ih (updateActivityRow (venueFor vbk it) now it a)
        exact ⟨h.1, h.2.1, h.2.2.1, h.2.2.2⟩
      · rw [if_neg hid]
        exact ih a

/-- A row whose id no candidate targets passes through the loop unchanged. -/
theorem updFun_untouched (ebk : List (IdentityKey × ActivityRow))
    (vbk : List (VenueKey × VenueRow)) (now : DT)
    (items : List ExtractedActivity) :
    ∀ a : ActivityRow, ¬ touchedBy ebk items a.id →
      updFun ebk vbk now items a = a := by
  induction items with
  | nil => intro a _; rfl
  | cons it rest ih =>
    intro a hnt
    cases hcur : dictLookup ebk (identityKey it) with
    | none =>
      rw [updFun_cons_none ebk vbk now it rest hcur]
      exact ih a (fun ⟨it', hit', w⟩ => hnt ⟨it', List.mem_cons_of_mem it hit', w⟩)
    | some cur =>
      rw [updFun_cons_some ebk vbk now it rest cur hcur]
      have hid : ¬ a.id = cur.id := fun hid =>
        hnt ⟨it, List.mem_cons_self it rest, cur, hcur, hid.symm⟩
      rw [if_neg hid]
      exact ih a (fun ⟨it', hit', w⟩ => hnt ⟨it', List.mem_cons_of_mem it hit', w⟩)

/-- A row whose id some candidate targets leaves the loop with both
bookkeeping stamps set to the loop's `now`. -/
theorem updFun_touched (ebk : List (IdentityKey × ActivityRow))
    (vbk : List (VenueKey × VenueRow)) (now : DT)
    (items : List ExtractedActivity) :
    ∀ a : ActivityRow, touchedBy ebk items a.id →
      (updFun ebk vbk now items a).last_seen_at = now ∧
      (updFun ebk vbk now items a).updated_at = now := by
  induction items with
  | nil => rintro a ⟨it, hit, w⟩; simp at hit
  | cons it rest ih =>
    rintro a ⟨it', hit', cur', hcur', hid'⟩
    rcases List.mem_cons.mp hit' with rfl | hrest
    · rw [updFun_cons_some ebk vbk now it' rest cur' hcur', if_pos hid'.symm]
      by_cases htouch : touchedBy ebk rest a.id
      · exact ih _ htouch
      · rw [updFun_untouched ebk vbk now rest
            (updateActivityRow (venueFor vbk it') now it' a) htouch]
        exact ⟨rfl, rfl⟩
    · cases hcur : dictLookup ebk (identityKey it) with
      | none =>
        rw [updFun_cons_none ebk vbk now it rest hcur]
        exact ih a ⟨it', hrest, cur', hcur', hid'⟩
      | some cur =>
        rw [updFun_cons_some ebk vbk now it rest cur hcur]
        by_cases hid : a.id = cur.id
        · rw [if_pos hid]
          by_cases htouch : touchedBy ebk rest a.id
          · exact ih _ htouch
          · rw [updFun_untouched ebk vbk now rest
                (updateActivityRow (venueFor vbk it) now it a) htouch]
            exact ⟨rfl, rfl⟩
        · rw [if_neg hid]
          exact ih a ⟨it', hrest, cur', hcur', hid'⟩

/-! ### The chunked queries cover the key set exactly once -/
theorem chunked_nil {α : Type} (n : Nat) : chunked ([] : List α) n = [] := by
  unfold chunked
  have h0 : (List.length ([] : List α) + n - 1) / n = 0 := by
    cases n with
    | zero => simp
    | succ m =>
      simp only [List.length_nil, Nat.zero_add]
      exact Nat.div_eq_of_lt (by omega)
  rw [h0]
  rfl

theorem chunked_cons {α : Type} (l : List α) (n : Nat) (hn : 0 < n)
    (hl : l ≠ []) : chunked l n = l.take n :: chunked (l.drop n) n := by
  unfold chunked
  have hlen : 0 < l.length := List.length_pos.mpr hl
  have key : ∀ m : Nat, 0 < m → (m + n - 1) / n = (m - 1) / n + 1 := by
    intro m hm
    have hrw : m + n - 1 = (m - 1) + 1 * n := by omega
    rw [hrw, Nat.add_mul_div_right _ _ hn]
  have hcount : (l.length + n - 1) / n = ((l.drop n).length + n - 1) / n + 1 := by
    rw [List.length_drop, key l.length hlen]
    rcases Nat.lt_or_ge l.length (n + 1) with hle | hge
    · have h1 : l.length - n = 0 := by omega
      have h2 : (l.length - 1) / n = 0 := Nat.div_eq_of_lt (by omega)
      have h3 : (0 + n - 1) / n = 0 := Nat.div_eq_of_lt (by omega)
      rw [h1, h2, h3]
    · rw [key (l.length - n) (by omega)]
      have h4 : (l.length - 1) / n = (l.length - n - 1) / n + 1 := by
        have hrw : l.length - 1 = (l.length - n - 1) + 1 * n := by omega
        conv_lhs => rw [hrw]
        rw [Nat.add_mul_div_right _ _ hn]
      rw [h4]
  rw [hcount, List.range_succ_eq_map, List.map_cons, List.map_map]
  congr 1
  · rw [Nat.zero_mul, List.drop_zero]
  · apply List.map_congr_left
    intro i _
    simp only [Function.comp_apply]
    rw [List.drop_drop]
    congr 2
    rw [Nat.succ_mul]
    exact Nat.add_comm _ _

theorem chunked_flatten {α : Type} (n : Nat) (hn : 0 < n) (l : List α) :
    (chunked l n).flatten = l := by
  have key : ∀ (m : Nat) (l : List α), l.length ≤ m → (chunked l n).flatten = l := by
    intro m
    induction m with
    | zero =>
      intro l hl
      have hn0 : l = [] := List.length_eq_zero.mp (Nat.le_zero.mp hl)
      subst hn0
      rw [chunked_nil]
      rfl
    | succ m ih =>
      intro l hl
      by_cases hnil : l = []
      · subst hnil; rw [chunked_nil]; rfl
      · rw [chunked_cons l n hn hnil, List.flatten_cons,
          ih (l.drop n) (by
            rw [List.length_drop]
            have := List.length_pos.mpr hnil
            omega),
          List.take_append_drop]
  exact key l.length l le_rfl

/-- Filtering a duplicate-keyed-free row list through a partition of its key
list, chunk by chunk, returns every row exactly once in order. -/
theorem flatten_filter_of_partition {R κ : Type} [DecidableEq κ] (key : R → κ) :
    ∀ (chunks : List (List κ)) (rows : List R),
      (rows.map key).Nodup → chunks.flatten = rows.map key →
      (chunks.map (fun ch => rows.filter (fun a => key a ∈ ch))).flatten = rows := by
  intro chunks
  induction chunks with
  | nil =>
    intro rows _ hfl
    simp only [List.flatten_nil] at hfl
    rw [List.map_nil, List.flatten_nil]
    exact (List.map_eq_nil_iff.mp hfl.symm).symm
  | cons ch rest ih =>
    intro rows hnd hfl
    rw [List.flatten_cons] at hfl
    have hch : ch = (rows.map key).take ch.length := by
      rw [← hfl, List.take_left]
    have hrest : rest.flatten = (rows.map key).drop ch.length := by
      rw [← hfl, List.drop_left]
    have hkeytake : (rows.take ch.length).map key = ch := by
      rw [List.map_take, ← hch]
    have hkeydrop : (rows.drop ch.length).map key = rest.flatten := by
      rw [List.map_drop, hrest]
    have hnd' : (ch ++ rest.flatten).Nodup := by rw [hfl]; exact hnd
    have hdisj : List.Disjoint ch rest.flatten := (List.nodup_append.mp hnd').2.2
    have hhead : rows.filter (fun a => key a ∈ ch) = rows.take ch.length := by
      have hsplit : rows.filter (fun a => key a ∈ ch)
          = (rows.take ch.length ++ rows.drop ch.length).filter (fun a => key a ∈ ch) := by
        rw [List.take_append_drop]
      rw [hsplit, List.filter_append]
      have h1 : (rows.take ch.length).filter (fun a => key a ∈ ch) = rows.take ch.length := by
        rw [List.filter_eq_self]
        intro a ha
        simp only [decide_eq_true_eq]
        rw [← hkeytake]
        exact List.mem_map_of_mem key ha
      have h2 : (rows.drop ch.length).filter (fun a => key a ∈ ch) = [] := by
        rw [List.filter_eq_nil_iff]
        intro a ha
        simp only [decide_eq_true_eq]
        intro hmem
        exact hdisj hmem (by rw [← hkeydrop]; exact List.mem_map_of_mem key ha)
      rw [h1, h2, List.append_nil]
    have htail : ∀ ch' ∈ rest, rows.filter (fun a => key a ∈ ch')
        = (rows.drop ch.length).filter (fun a => key a ∈ ch') := by
      intro ch' hch'
      have hsplit : rows.filter (fun a => key a ∈ ch')
          = (rows.take ch.length ++ rows.drop ch.length).filter (fun a => key a ∈ ch') := by
        rw [List.take_append_drop]
      rw [hsplit, List.filter_append]
      have h0 : (rows.take ch.length).filter (fun a => key a ∈ ch') = [] := by
        rw [List.filter_eq_nil_iff]
        intro a ha
        simp only [decide_eq_true_eq]
        intro hmem
        have hkch : key a ∈ ch := by
          rw [← hkeytake]
          exact List.mem_map_of_mem key ha
        exact hdisj hkch (List.mem_flatten.mpr ⟨ch', hch', hmem⟩)
      rw [h0, List.nil_append]
    have hndrop : ((rows.drop ch.length).map key).Nodup := by
      rw [List.map_drop]
      exact (List.drop_sublist _ _).nodup hnd
    have hih := ih (rows.drop ch.length) hndrop hkeydrop.symm
    rw [List.map_cons, List.flatten_cons, hhead,
      List.map_congr_left htail, hih, List.take_append_drop]

/-! ### Source resolution lemmas -/
theorem pickLongest_aux_ne_none (b : SourceRow) (l : List SourceRow) :
    l.foldl
      (fun best s =>
        match best with
        | none => some s
        | some bb => if s.base_url.length > bb.base_url.length then some s else best)
      (some b) ≠ none := by
  induction l generalizing b with
  | nil => simp
  | cons s l ih =>
    rw [List.foldl_cons]
    by_cases h : s.base_url.length > b.base_url.length
    · simpa [h] using ih s
    · simpa [h] using ih b

theorem pickLongest_eq_none_iff (l : List SourceRow) :
    pickLongest l = none ↔ l = [] := by
  cases l with
  | nil => simp [pickLongest]
  | cons s l =>
    simp only [pickLongest, List.foldl_cons]
    constructor
    · intro h
      exact absurd h (pickLongest_aux_ne_none s l)
    · intro h
      simp at h

theorem splitOnFirst_spec (sep : PyStr) :
    ∀ s p q, splitOnFirst sep s = some (p, q) → s = p ++ sep ++ q := by
  intro s
  induction s with
  | nil =>
    intro p q h
    unfold splitOnFirst at h
    split at h
    case isTrue hsep =>
      simp only [Option.some.injEq, Prod.mk.injEq] at h
      rw [← h.1, ← h.2, List.isEmpty_iff.mp hsep]
      rfl
    case isFalse hsep => simp at h
  | cons c tl ih =>
    intro p q h
    unfold splitOnFirst at h
    split at h
    case isTrue hpre =>
      simp only [Option.some.injEq, Prod.mk.injEq] at h
      obtain ⟨t, ht⟩ := List.isPrefixOf_iff_prefix.mp hpre
      rw [← h.1, ← h.2, List.nil_append]
      rw [← ht, List.drop_left]
    case isFalse hpre =>
      cases hsp : splitOnFirst sep tl with
      | none => rw [hsp] at h; simp at h
      | some r =>
        rw [hsp] at h
        have hmap : (some (c :: r.1, r.2) : Option (PyStr × PyStr)) = some (p, q) := h
        have h12 := (Prod.mk.injEq _ _ _ _).mp (Option.some.inj hmap)
        have hih := ih r.1 r.2 (by rw [hsp])
        rw [← h12.1, ← h12.2, List.cons_append, List.cons_append, ← hih]

/-- The lazily created base URL is a prefix of the batch URL. -/
theorem mkSourceBaseUrl_prefix (u : PyStr) :
    pyStartsWith u (mkSourceBaseUrl u) = true := by
  unfold pyStartsWith
  rw [List.isPrefixOf_iff_prefix]
  cases hsp : splitOnFirst ("://".toList) u with
  | none =>
    have hpn : pyUrlSchemeNetloc u = ([], []) := by
      unfold pyUrlSchemeNetloc
      rw [hsp]
    unfold mkSourceBaseUrl
    rw [hpn, if_neg (by simp)]
  | some p =>
    have hpn : pyUrlSchemeNetloc u = (p.1, p.2.takeWhile (fun c => c ≠ '/')) := by
      unfold pyUrlSchemeNetloc
      rw [hsp]
    unfold mkSourceBaseUrl
    rw [hpn]
    split
    case isTrue hcond =>
      show (p.1 ++ ("://".toList) ++ p.2.takeWhile (fun c => c ≠ '/')) <+: u
      obtain ⟨t2, ht2⟩ := List.takeWhile_prefix (fun c => decide (c ≠ '/')) (l := p.2)
      have hu : u = p.1 ++ ("://".toList) ++ p.2 :=
        splitOnFirst_spec _ u p.1 p.2 (by rw [hsp])
      refine ⟨t2, ?_⟩
      rw [List.append_assoc (p.1 ++ ("://".toList)), ht2, hu]
    case isFalse hcond =>
      exact List.prefix_refl u

/-- The lazily created `Source` row's base URL is a prefix of the batch URL. -/
theorem mkSourceRow_base_prefix (nid : Nat) (u t : PyStr) :
    pyStartsWith u (mkSourceRow nid u t).base_url = true :=
  mkSourceBaseUrl_prefix u

/-- Re-resolving the same URL against the source table produced by a first
resolution finds the first run's source row and adds nothing. -/
theorem resolveSource_second (db0 db1 : DB) (u t t' : PyStr)
    (hs : db1.sources = (resolveSource db0 u t).1.sources) :
    resolveSource db1 u t' = (db1, (resolveSource db0 u t).2) := by
  unfold resolveSource
  cases hpick : pickLongest (db0.sources.filter (sourceMatches u)) with
  | some s =>
    have hs' : db1.sources = db0.sources := by
      rw [hs]
      unfold resolveSource
      rw [hpick]
    rw [hs', hpick]
  | none =>
    have hfilter0 : db0.sources.filter (sourceMatches u) = [] :=
      (pickLongest_eq_none_iff _).mp hpick
    have hs' : db1.sources = db0.sources ++ [mkSourceRow db0.nextSourceId u t] := by
      rw [hs]
      unfold resolveSource
      rw [hpick]
    rw [hs', List.filter_append, hfilter0, List.nil_append,
      List.filter_cons,
      if_pos (show sourceMatches u (mkSourceRow db0.nextSourceId u t) = true from
        mkSourceRow_base_prefix db0.nextSourceId u t),
      List.filter_nil]
    rfl

/-! ### Plumbing: which tables each phase touches -/
theorem resolve_venues_sources (db : DB) (e : List ExtractedActivity) :
    ((resolve_venues db e).1).sources = db.sources := by
  simp only [resolve_venues]
  split <;> rfl

theorem resolve_venues_nextActivityId (db : DB) (e : List ExtractedActivity) :
    ((resolve_venues db e).1).nextActivityId = db.nextActivityId := by
  simp only [resolve_venues]
  split <;> rfl

theorem resolveSource_nextActivityId (db : DB) (u a : PyStr) :
    ((resolveSource db u a).1).nextActivityId = db.nextActivityId := by
  unfold resolveSource
  cases hb : pickLongest (db.sources.filter (sourceMatches u)) <;> simp [hb]

/-- First-run characterization: when no stored row carries a batch identity
key, the upsert inserts one freshly numbered row per deduplicated candidate
and advances the id counter by the batch size. -/
theorem upsert_run_fresh (u t : PyStr) (extracted : List ExtractedActivity)
    (now : DT) (db : DB)
    (hne : ¬ (dedupeByKey identityKey extracted).isEmpty = true)
    (H : ∀ a ∈ db.activities,
      rowKey a ∉ (dedupeByKey identityKey extracted).map identityKey) :
    (upsert_extracted_activities u extracted t now db).1
      = { (resolve_venues (resolveSource db u t).1 (dedupeByKey identityKey extracted)).1 with
          activities := db.activities ++
            insertedRows (resolveSource db u t).2.id
              (resolve_venues (resolveSource db u t).1 (dedupeByKey identityKey extracted)).2
              now (dedupeByKey identityKey extracted) db.nextActivityId,
          nextActivityId := db.nextActivityId + (dedupeByKey identityKey extracted).length } := by
  simp only [upsert_extracted_activities]
  rw [if_neg hne]
  have hkeys : dedupFirst ((dedupeByKey identityKey extracted).map identityKey)
      = (dedupeByKey identityKey extracted).map identityKey :=
    dedupFirst_of_nodup _ (dedupeByKey_keys_nodup extracted)
  have hex : existingItems (resolveSource db u t).1 (resolveSource db u t).2.id
      (dedupFirst ((dedupeByKey identityKey extracted).map identityKey)) = [] := by
    rw [hkeys]
    apply existingItems_eq_nil
    intro a ha
    apply H
    rw [resolveSource_activities db u t] at ha
    exact ha
  rw [hex, List.foldl_nil]
  rw [processItem_fold_all_insert _ [] _ now _ (fun item _ => rfl)]
  have hact : ((resolve_venues (resolveSource db u t).1
      (dedupeByKey identityKey extracted)).1).activities = db.activities := by
    rw [resolve_venues_activities, resolveSource_activities]
  have hnid : ((resolve_venues (resolveSource db u t).1
      (dedupeByKey identityKey extracted)).1).nextActivityId = db.nextActivityId := by
    rw [resolve_venues_nextActivityId, resolveSource_nextActivityId]
  rw [hact, hnid]

theorem insertedRows_fields (sid : Nat) (vbk : List (VenueKey × VenueRow))
    (now : DT) (items : List ExtractedActivity) :
    ∀ nid r, r ∈ insertedRows sid vbk now items nid →
      r.first_seen_at = now ∧ r.last_seen_at = now ∧ r.updated_at = now ∧
        r.source_id = sid := by
  induction items with
  | nil => intro nid r hr; simp [insertedRows] at hr
  | cons it rest ih =>
    intro nid r hr
    rcases List.mem_cons.mp hr with rfl | hr'
    · exact ⟨rfl, rfl, rfl, rfl⟩
    · exact ih (nid + 1) r hr'

/-- Run-2 characterization of the chunked existing-rows query: with the
stored table being untouched old rows (carrying none of the keys) followed by
the fresh rows whose keys are exactly the queried ones, the query returns the
fresh rows, each exactly once, in order. -/
theorem existingItems_append_newRows (db1 : DB) (sid : Nat)
    (old freshRows : List ActivityRow) (keys : List IdentityKey)
    (hacts : db1.activities = old ++ freshRows)
    (hold : ∀ a ∈ old, rowKey a ∉ keys)
    (hsid : ∀ a ∈ freshRows, a.source_id = sid)
    (hkeysnew : freshRows.map rowKey = keys)
    (hnd : keys.Nodup) :
    existingItems db1 sid keys = freshRows := by
  unfold existingItems
  rw [hacts]
  have hmap : (chunked keys UPSERT_BATCH_SIZE).map
      (fun ch => (old ++ freshRows).filter (fun a => a.source_id = sid ∧ rowKey a ∈ ch))
      = (chunked keys UPSERT_BATCH_SIZE).map
      (fun ch => freshRows.filter (fun a => rowKey a ∈ ch)) := by
    apply List.map_congr_left
    intro ch hch
    rw [List.filter_append]
    have h0 : old.filter (fun a => a.source_id = sid ∧ rowKey a ∈ ch) = [] := by
      rw [List.filter_eq_nil_iff]
      intro a ha
      simp only [decide_eq_true_eq, not_and]
      intro _ hkmem
      exact hold a ha (chunked_mem_subset _ _ _ hch _ hkmem)
    rw [h0, List.nil_append]
    apply List.filter_congr
    intro a ha
    simp [hsid a ha]
  rw [hmap]
  have hpart := flatten_filter_of_partition rowKey (chunked keys UPSERT_BATCH_SIZE)
    freshRows
    (by rw [hkeysnew]; exact hnd)
    (by
      rw [chunked_flatten UPSERT_BATCH_SIZE (by norm_num [UPSERT_BATCH_SIZE]) keys]
      exact hkeysnew.symm)
  refine Eq.trans (congrArg List.flatten ?_) hpart
  apply List.map_congr_left
  intro ch _
  apply List.filter_congr
  intro a _
  exact decide_eq_decide.mpr Iff.rfl

/-- Looking a fresh row's key up in the dict built over the fresh rows finds
that row. -/
theorem ebk_lookup_of_mem (rows : List ActivityRow)
    (hnd : (rows.map rowKey).Nodup) (r : ActivityRow) (hr : r ∈ rows) :
    dictLookup (rows.foldl (fun m a => dictInsert (rowKey a) a m) []) (rowKey r)
      = some r := by
  rw [dictLookup_foldl_insert rowKey rows [] (rowKey r),
    filter_key_of_nodup rowKey rows hnd r hr]
  rfl

/-- Second-run characterization: when the source resolves in place and every
candidate finds an existing row, the upsert is a pointwise rewrite of the
activities table. -/
theorem upsert_run_update (u t : PyStr) (extracted : List ExtractedActivity)
    (now : DT) (db : DB) (s : SourceRow) (rows : List ActivityRow)
    (hne : ¬ (dedupeByKey identityKey extracted).isEmpty = true)
    (hsrc : resolveSource db u t = (db, s))
    (hex : existingItems db s.id
      (dedupFirst ((dedupeByKey identityKey extracted).map identityKey)) = rows)
    (hhit : ∀ it ∈ dedupeByKey identityKey extracted,
      (dictLookup (rows.foldl (fun m a => dictInsert (rowKey a) a m) [])
        (identityKey it)).isSome) :
    ((upsert_extracted_activities u extracted t now db).1).activities
      = db.activities.map
          (updFun (rows.foldl (fun m a => dictInsert (rowKey a) a m) [])
            (resolve_venues db (dedupeByKey identityKey extracted)).2 now
            (dedupeByKey identityKey extracted)) := by
  simp only [upsert_extracted_activities]
  rw [if_neg hne]
  simp only [hsrc]
  rw [hex, processItem_fold_all_update s.id _ _ now _ hhit,
    resolve_venues_activities]

/-- C1: starting from a store holding none of the batch's identity keys,
running the upsert twice with the identical batch leaves exactly one activity
row per identity key; the second run leaves that row's identity fields
(source id, source URL, title, start time) and `first_seen_at` (the first
run's timestamp) unchanged while stamping `last_seen_at` and `updated_at`
with the second run's timestamp. -/
theorem c1_idempotent_upsert (u t : PyStr) (extracted : List ExtractedActivity)
    (now1 now2 : DT) (db0 : DB)
    (H : ∀ a ∈ db0.activities,
      rowKey a ∉ (dedupeByKey identityKey extracted).map identityKey) :
    ∀ k ∈ (dedupeByKey identityKey extracted).map identityKey,
      ∃ row1 row2 : ActivityRow,
        ((upsert_extracted_activities u extracted t now1 db0).1).activities.filter (fun a => rowKey a = k) = [row1] ∧
        ((upsert_extracted_activities u extracted t now2 ((upsert_extracted_activities u extracted t now1 db0).1)).1).activities.filter
            (fun a => rowKey a = k) = [row2] ∧
        rowKey row1 = k ∧ rowKey row2 = k ∧
        row2.source_id = row1.source_id ∧
        row1.first_seen_at = now1 ∧ row2.first_seen_at = now1 ∧
        row2.last_seen_at = now2 ∧ row2.updated_at = now2 := by
  intro k hk
  have hne : ¬ (dedupeByKey identityKey extracted).isEmpty = true := by
    intro hempty
    rw [List.isEmpty_iff] at hempty
    rw [hempty] at hk
    simp at hk
  have h1 := upsert_run_fresh u t extracted now1 db0 hne H
  have hdb1acts : ((upsert_extracted_activities u extracted t now1 db0).1).activities = db0.activities ++ (insertedRows (resolveSource db0 u t).2.id (resolve_venues (resolveSource db0 u t).1 (dedupeByKey identityKey extracted)).2 now1 (dedupeByKey identityKey extracted) db0.nextActivityId) := by
    rw [h1]
  have hnewkeys : (insertedRows (resolveSource db0 u t).2.id (resolve_venues (resolveSource db0 u t).1 (dedupeByKey identityKey extracted)).2 now1 (dedupeByKey identityKey extracted) db0.nextActivityId).map rowKey = (dedupeByKey identityKey extracted).map identityKey :=
    insertedRows_map_rowKey _ _ _ _ _
  have hndD := dedupeByKey_keys_nodup extracted
  have hndnew : ((insertedRows (resolveSource db0 u t).2.id (resolve_venues (resolveSource db0 u t).1 (dedupeByKey identityKey extracted)).2 now1 (dedupeByKey identityKey extracted) db0.nextActivityId).map rowKey).Nodup := by
    rw [hnewkeys]
    exact hndD
  have hkmem : k ∈ (insertedRows (resolveSource db0 u t).2.id (resolve_venues (resolveSource db0 u t).1 (dedupeByKey identityKey extracted)).2 now1 (dedupeByKey identityKey extracted) db0.nextActivityId).map rowKey := by
    rw [hnewkeys]
    exact hk
  obtain ⟨r, hrmem, hrkey⟩ := List.mem_map.mp hkmem
  have hfilter_new : (insertedRows (resolveSource db0 u t).2.id (resolve_venues (resolveSource db0 u t).1 (dedupeByKey identityKey extracted)).2 now1 (dedupeByKey identityKey extracted) db0.nextActivityId).filter (fun a => rowKey a = k) = [r] := by
    rw [← hrkey]
    exact filter_key_of_nodup rowKey _ hndnew r hrmem
  have hfilter_old : db0.activities.filter (fun a => rowKey a = k) = [] := by
    rw [List.filter_eq_nil_iff]
    intro a ha
    simp only [decide_eq_true_eq]
    intro hak
    exact H a ha (by rw [hak]; exact hk)
  have hfilter1 : ((upsert_extracted_activities u extracted t now1 db0).1).activities.filter (fun a => rowKey a = k) = [r] := by
    rw [hdb1acts, List.filter_append, hfilter_old, List.nil_append, hfilter_new]
  have hrfields := insertedRows_fields (resolveSource db0 u t).2.id (resolve_venues (resolveSource db0 u t).1 (dedupeByKey identityKey extracted)).2 now1 (dedupeByKey identityKey extracted) db0.nextActivityId r hrmem
  have hsrc2 : resolveSource ((upsert_extracted_activities u extracted t now1 db0).1) u t = (((upsert_extracted_activities u extracted t now1 db0).1), (resolveSource db0 u t).2) := by
    apply resolveSource_second db0 _ u t t
    rw [h1]
    exact resolve_venues_sources _ _
  have hsid_new : ∀ a ∈ (insertedRows (resolveSource db0 u t).2.id (resolve_venues (resolveSource db0 u t).1 (dedupeByKey identityKey extracted)).2 now1 (dedupeByKey identityKey extracted) db0.nextActivityId), a.source_id = (resolveSource db0 u t).2.id :=
    fun a ha => (insertedRows_fields _ _ _ _ _ a ha).2.2.2
  have hex2 : existingItems ((upsert_extracted_activities u extracted t now1 db0).1) (resolveSource db0 u t).2.id ((dedupeByKey identityKey extracted).map identityKey) = (insertedRows (resolveSource db0 u t).2.id (resolve_venues (resolveSource db0 u t).1 (dedupeByKey identityKey extracted)).2 now1 (dedupeByKey identityKey extracted) db0.nextActivityId) :=
    existingItems_append_newRows _ _ db0.activities _ _ hdb1acts H hsid_new hnewkeys hndD
  have hkeys : dedupFirst ((dedupeByKey identityKey extracted).map identityKey) = (dedupeByKey identityKey extracted).map identityKey :=
    dedupFirst_of_nodup _ hndD
  have hhit : ∀ it ∈ (dedupeByKey identityKey extracted),
      (dictLookup ((insertedRows (resolveSource db0 u t).2.id (resolve_venues (resolveSource db0 u t).1 (dedupeByKey identityKey extracted)).2 now1 (dedupeByKey identityKey extracted) db0.nextActivityId).foldl (fun m a => dictInsert (rowKey a) a m) []) (identityKey it)).isSome := by
    intro it hit
    have hmem : identityKey it ∈ (insertedRows (resolveSource db0 u t).2.id (resolve_venues (resolveSource db0 u t).1 (dedupeByKey identityKey extracted)).2 now1 (dedupeByKey identityKey extracted) db0.nextActivityId).map rowKey := by
      rw [hnewkeys]
      exact List.mem_map_of_mem identityKey hit
    obtain ⟨r2, hr2, hr2k⟩ := List.mem_map.mp hmem
    rw [← hr2k, ebk_lookup_of_mem _ hndnew r2 hr2]
    rfl
  have hrun2 := upsert_run_update u t extracted now2 ((upsert_extracted_activities u extracted t now1 db0).1)
    (resolveSource db0 u t).2 (insertedRows (resolveSource db0 u t).2.id (resolve_venues (resolveSource db0 u t).1 (dedupeByKey identityKey extracted)).2 now1 (dedupeByKey identityKey extracted) db0.nextActivityId) hne hsrc2 (by rw [hkeys]; exact hex2) hhit
  have hpres := updFun_preserves ((insertedRows (resolveSource db0 u t).2.id (resolve_venues (resolveSource db0 u t).1 (dedupeByKey identityKey extracted)).2 now1 (dedupeByKey identityKey extracted) db0.nextActivityId).foldl (fun m a => dictInsert (rowKey a) a m) []) (resolve_venues ((upsert_extracted_activities u extracted t now1 db0).1) (dedupeByKey identityKey extracted)).2 now2 (dedupeByKey identityKey extracted)
  have hfilter2 :
      ((upsert_extracted_activities u extracted t now2 ((upsert_extracted_activities u extracted t now1 db0).1)).1).activities.filter
        (fun a => rowKey a = k) = [(updFun ((insertedRows (resolveSource db0 u t).2.id (resolve_venues (resolveSource db0 u t).1 (dedupeByKey identityKey extracted)).2 now1 (dedupeByKey identityKey extracted) db0.nextActivityId).foldl (fun m a => dictInsert (rowKey a) a m) []) (resolve_venues ((upsert_extracted_activities u extracted t now1 db0).1) (dedupeByKey identityKey extracted)).2 now2 (dedupeByKey identityKey extracted)) r] := by
    rw [hrun2, List.filter_map]
    have hcongr : ((upsert_extracted_activities u extracted t now1 db0).1).activities.filter ((fun a => decide (rowKey a = k)) ∘ (updFun ((insertedRows (resolveSource db0 u t).2.id (resolve_venues (resolveSource db0 u t).1 (dedupeByKey identityKey extracted)).2 now1 (dedupeByKey identityKey extracted) db0.nextActivityId).foldl (fun m a => dictInsert (rowKey a) a m) []) (resolve_venues ((upsert_extracted_activities u extracted t now1 db0).1) (dedupeByKey identityKey extracted)).2 now2 (dedupeByKey identityKey extracted)))
        = ((upsert_extracted_activities u extracted t now1 db0).1).activities.filter (fun a => rowKey a = k) := by
      apply List.filter_congr
      intro a _
      show decide (rowKey ((updFun ((insertedRows (resolveSource db0 u t).2.id (resolve_venues (resolveSource db0 u t).1 (dedupeByKey identityKey extracted)).2 now1 (dedupeByKey identityKey extracted) db0.nextActivityId).foldl (fun m a => dictInsert (rowKey a) a m) []) (resolve_venues ((upsert_extracted_activities u extracted t now1 db0).1) (dedupeByKey identityKey extracted)).2 now2 (dedupeByKey identityKey extracted)) a) = k) = decide (rowKey a = k)
      rw [(hpres a).2.2.1]
    rw [hcongr, hfilter1]
    rfl
  have htouched : touchedBy ((insertedRows (resolveSource db0 u t).2.id (resolve_venues (resolveSource db0 u t).1 (dedupeByKey identityKey extracted)).2 now1 (dedupeByKey identityKey extracted) db0.nextActivityId).foldl (fun m a => dictInsert (rowKey a) a m) []) (dedupeByKey identityKey extracted) r.id := by
    obtain ⟨item, hitem, hikey⟩ := List.mem_map.mp hk
    exact ⟨item, hitem, r, by
      rw [hikey, ← hrkey]
      exact ebk_lookup_of_mem _ hndnew r hrmem, rfl⟩
  have hstamps := updFun_touched ((insertedRows (resolveSource db0 u t).2.id (resolve_venues (resolveSource db0 u t).1 (dedupeByKey identityKey extracted)).2 now1 (dedupeByKey identityKey extracted) db0.nextActivityId).foldl (fun m a => dictInsert (rowKey a) a m) []) (resolve_venues ((upsert_extracted_activities u extracted t now1 db0).1) (dedupeByKey identityKey extracted)).2 now2 (dedupeByKey identityKey extracted) r htouched
  refine ⟨r, (updFun ((insertedRows (resolveSource db0 u t).2.id (resolve_venues (resolveSource db0 u t).1 (dedupeByKey identityKey extracted)).2 now1 (dedupeByKey identityKey extracted) db0.nextActivityId).foldl (fun m a => dictInsert (rowKey a) a m) []) (resolve_venues ((upsert_extracted_activities u extracted t now1 db0).1) (dedupeByKey identityKey extracted)).2 now2 (dedupeByKey identityKey extracted)) r, hfilter1, hfilter2, hrkey, ?_, (hpres r).2.1, hrfields.1, ?_, hstamps.1, hstamps.2⟩
  · rw [(hpres r).2.2.1]
    exact hrkey
  · rw [(hpres r).2.2.2]
    exact hrfields.1

theorem c1_idempotent_upsert_witness :
    ∃ row1 row2 : ActivityRow,
      ((upsert_extracted_activities ("https://example.org/events".toList) [c1Item] ("static_html".toList) c1Now1 DB.empty).1).activities.filter
          (fun a => rowKey a = identityKey c1Item) = [row1] ∧
      ((upsert_extracted_activities ("https://example.org/events".toList) [c1Item] ("static_html".toList) c1Now2
          (upsert_extracted_activities ("https://example.org/events".toList) [c1Item] ("static_html".toList) c1Now1 DB.empty).1).1).activities.filter
          (fun a => rowKey a = identityKey c1Item) = [row2] ∧
      rowKey row1 = identityKey c1Item ∧ rowKey row2 = identityKey c1Item ∧
      row2.source_id = row1.source_id ∧
      row1.first_seen_at = c1Now1 ∧ row2.first_seen_at = c1Now1 ∧
      row2.last_seen_at = c1Now2 ∧ row2.updated_at = c1Now2 :=
  c1_idempotent_upsert ("https://example.org/events".toList) ("static_html".toList) [c1Item] c1Now1 c1Now2 DB.empty
    (by intro a ha; simp [DB.empty] at ha)
    (identityKey c1Item) (by decide)

theorem desiredVenues_eq (e : List ExtractedActivity) :
    desiredVenues e = e.foldl desiredStep [] := rfl

theorem desiredStep_none (d : List (VenueKey × Option PyStr))
    (it : ExtractedActivity) (h : venueKeyOf it = none) :
    desiredStep d it = d := by
  unfold desiredStep; rw [h]

theorem desiredStep_some_ins (d : List (VenueKey × Option PyStr))
    (it : ExtractedActivity) (vk : VenueKey) (h : venueKeyOf it = some vk)
    (hc : dictLookup d vk = none ∨ dictLookup d vk = some none) :
    desiredStep d it = dictInsert vk (normalize_optional_text it.location_text) d := by
  unfold desiredStep; rw [h]
  show (if dictLookup d vk = none ∨ dictLookup d vk = some none then
      dictInsert vk (normalize_optional_text it.location_text) d else d) = _
  rw [if_pos hc]

theorem desiredStep_some_keep (d : List (VenueKey × Option PyStr))
    (it : ExtractedActivity) (vk : VenueKey) (h : venueKeyOf it = some vk)
    (hc : ¬ (dictLookup d vk = none ∨ dictLookup d vk = some none)) :
    desiredStep d it = d := by
  unfold desiredStep; rw [h]
  show (if dictLookup d vk = none ∨ dictLookup d vk = some none then
      dictInsert vk (normalize_optional_text it.location_text) d else d) = _
  rw [if_neg hc]

theorem dedupFirst_subset {α : Type} [DecidableEq α] (l : List α) :
    ∀ x ∈ dedupFirst l, x ∈ l := by
  have haux : ∀ (l acc : List α) (x : α),
      x ∈ l.foldl (fun acc x => if x ∈ acc then acc else acc ++ [x]) acc →
      x ∈ acc ∨ x ∈ l := by
    intro l
    induction l with
    | nil => intro acc x hx; exact Or.inl hx
    | cons a l ih =>
      intro acc x hx
      rw [List.foldl_cons] at hx
      rcases ih _ x hx with hacc | hl
      · by_cases hmem : a ∈ acc
        · rw [if_pos hmem] at hacc
          exact Or.inl hacc
        · rw [if_neg hmem] at hacc
          rcases List.mem_append.mp hacc with h | h
          · exact Or.inl h
          · simp only [List.mem_singleton] at h
            exact Or.inr (h ▸ List.mem_cons_self a l)
      · exact Or.inr (List.mem_cons_of_mem a hl)
  intro x hx
  rcases haux l [] x hx with h | h
  · exact absurd h (List.not_mem_nil x)
  · exact h

/-- Members of `dictInsert` either were in the dict or carry the inserted
key. -/
theorem dictInsert_mem_key {κ α : Type} [DecidableEq κ]
    (k : κ) (v : α) (d : List (κ × α)) (p : κ × α) (hp : p ∈ dictInsert k v d) :
    p ∈ d ∨ p.1 = k := by
  unfold dictInsert at hp
  split at hp
  · rcases List.mem_map.mp hp with ⟨q, hq, rfl⟩
    by_cases hq1 : q.1 = k
    · simp [hq1]
    · simp only [hq1, if_false]
      exact Or.inl hq
  · rcases List.mem_append.mp hp with hq | hq
    · exact Or.inl hq
    · simp only [List.mem_singleton] at hq
      subst hq
      exact Or.inr rfl

/-- Every key recorded in `desired_venues` is the venue key of some batch
candidate. -/
theorem desiredVenues_mem (e : List ExtractedActivity) :
    ∀ p ∈ desiredVenues e, ∃ item ∈ e, venueKeyOf item = some p.1 := by
  have haux : ∀ (e : List ExtractedActivity) (d : List (VenueKey × Option PyStr))
      (p : VenueKey × Option PyStr), p ∈ e.foldl desiredStep d →
      p ∈ d ∨ ∃ item ∈ e, venueKeyOf item = some p.1 := by
    intro e
    induction e with
    | nil => intro d p hp; exact Or.inl hp
    | cons it rest ih =>
      intro d p hp
      rw [List.foldl_cons] at hp
      rcases ih _ p hp with h | h
      · cases hvk : venueKeyOf it with
        | none =>
          rw [desiredStep_none d it hvk] at h
          exact Or.inl h
        | some vk =>
          by_cases hc : dictLookup d vk = none ∨ dictLookup d vk = some none
          · rw [desiredStep_some_ins d it vk hvk hc] at h
            rcases dictInsert_mem_key _ _ _ _ h with hd | hkey
            · exact Or.inl hd
            · exact Or.inr ⟨it, List.mem_cons_self it rest, by rw [hvk, hkey]⟩
          · rw [desiredStep_some_keep d it vk hvk hc] at h
            exact Or.inl h
      · rcases h with ⟨item, hi, hv⟩
        exact Or.inr ⟨item, List.mem_cons_of_mem it hi, hv⟩
  intro p hp
  rw [desiredVenues_eq] at hp
  rcases haux e [] p hp with h | h
  · exact absurd h (List.not_mem_nil p)
  · exact h

/-- The keys of `desired_venues` carry no duplicates. -/
theorem desiredVenues_keys_nodup (e : List ExtractedActivity) :
    ((desiredVenues e).map (·.1)).Nodup := by
  rw [desiredVenues_eq]
  have haux : ∀ (e : List ExtractedActivity) (d : List (VenueKey × Option PyStr)),
      (d.map (·.1)).Nodup → (((e.foldl desiredStep d)).map (·.1)).Nodup := by
    intro e
    induction e with
    | nil => intro d hd; exact hd
    | cons it rest ih =>
      intro d hd
      rw [List.foldl_cons]
      apply ih
      cases hvk : venueKeyOf it with
      | none => rw [desiredStep_none d it hvk]; exact hd
      | some vk =>
        by_cases hc : dictLookup d vk = none ∨ dictLookup d vk = some none
        · rw [desiredStep_some_ins d it vk hvk hc]
          exact dictInsert_keys_nodup _ _ _ hd
        · rw [desiredStep_some_keep d it vk hvk hc]
          exact hd
  exact haux e [] (by simp)

/-- Value stored for a venue key by the `desired_venues` loop: starting from
an arbitrary dict, the fold preserves a non-`None` stored address, replaces a
stored `None` by the first non-empty address of the suffix, and for absent
keys records the first non-empty address iff some candidate carries the key. -/
theorem desiredLookup_aux (vk : VenueKey) (e : List ExtractedActivity) :
    ∀ (d : List (VenueKey × Option PyStr)),
      dictLookup (e.foldl desiredStep d) vk =
        match dictLookup d vk with
        | some (some a) => some (some a)
        | some none => some (firstNonEmptyLocationInBatch e vk)
        | none =>
          if e.any (fun i => venueKeyOf i = some vk) then
            some (firstNonEmptyLocationInBatch e vk)
          else none := by
  induction e with
  | nil =>
    intro d
    rw [List.foldl_nil]
    cases h : dictLookup d vk with
    | none => simp
    | some a => cases a <;> rfl
  | cons it rest ih =>
    intro d
    rw [List.foldl_cons]
    cases hvk : venueKeyOf it with
    | none =>
      have hfirst : firstNonEmptyLocationInBatch (it :: rest) vk
          = firstNonEmptyLocationInBatch rest vk := by
        rw [firstNonEmptyLocationInBatch, if_neg (by simp [hvk])]
      have hany : (it :: rest).any (fun i => venueKeyOf i = some vk)
          = rest.any (fun i => venueKeyOf i = some vk) := by
        simp [hvk]
      rw [desiredStep_none d it hvk, ih d]
      simp only [hfirst, hany]
    | some vk' =>
      by_cases hkey : vk' = vk
      · rw [hkey] at hvk
        have hfirst : firstNonEmptyLocationInBatch (it :: rest) vk
            = match normalize_optional_text it.location_text with
              | some a => some a
              | none => firstNonEmptyLocationInBatch rest vk := by
          rw [firstNonEmptyLocationInBatch, if_pos hvk]
        have hany : (it :: rest).any (fun i => venueKeyOf i = some vk) = true := by
          simp [hvk]
        cases hd : dictLookup d vk with
        | none =>
          rw [desiredStep_some_ins d it vk hvk (Or.inl hd), ih,
            dictLookup_dictInsert_self]
          cases hno : normalize_optional_text it.location_text with
          | some a => simp [hany, hfirst, hno]
          | none => simp [hany, hfirst, hno]
        | some cur =>
          cases cur with
          | none =>
            rw [desiredStep_some_ins d it vk hvk (Or.inr hd), ih,
              dictLookup_dictInsert_self]
            cases hno : normalize_optional_text it.location_text with
            | some a => simp [hfirst, hno]
            | none => simp [hfirst, hno]
          | some a =>
            rw [desiredStep_some_keep d it vk hvk (by simp [hd]), ih, hd]
      · have hpres : dictLookup (desiredStep d it) vk = dictLookup d vk := by
          by_cases hc : dictLookup d vk' = none ∨ dictLookup d vk' = some none
          · rw [desiredStep_some_ins d it vk' hvk hc]
            exact dictLookup_dictInsert_ne _ _ _ _ (fun h => hkey h.symm)
          · rw [desiredStep_some_keep d it vk' hvk hc]
        have hfirst : firstNonEmptyLocationInBatch (it :: rest) vk
            = firstNonEmptyLocationInBatch rest vk := by
          rw [firstNonEmptyLocationInBatch, if_neg (by simp [hvk, hkey])]
        have hany : (it :: rest).any (fun i => venueKeyOf i = some vk)
            = rest.any (fun i => venueKeyOf i = some vk) := by
          simp [hvk, hkey]
        rw [ih, hpres]
        simp only [hfirst, hany]

/-- `desired_venues[venue_key]` is exactly the first non-empty
`location_text` among candidates carrying that key. -/
theorem desiredVenues_lookup (e : List ExtractedActivity) (vk : VenueKey)
    (it : ExtractedActivity) (hit : it ∈ e) (hvk : venueKeyOf it = some vk) :
    dictLookup (desiredVenues e) vk = some (firstNonEmptyLocationInBatch e vk) := by
  rw [desiredVenues_eq, desiredLookup_aux vk e []]
  have hany : e.any (fun i => venueKeyOf i = some vk) = true := by
    rw [List.any_eq_true]
    exact ⟨it, hit, by simp [hvk]⟩
  simp [dictLookup, hany]

theorem dictLookup_mem {κ α : Type} [DecidableEq κ]
    (d : List (κ × α)) (k : κ) (v : α) (h : dictLookup d k = some v) :
    (k, v) ∈ d := by
  induction d with
  | nil => simp [dictLookup] at h
  | cons p tl ih =>
    unfold dictLookup at h
    split at h
    case isTrue hp =>
      have hv : v = p.2 := (Option.some_injective _ h).symm
      have : (k, v) = p := by
        cases p
        simp at hp
        simp [hp, hv]
      rw [this]
      exact List.mem_cons_self p tl
    case isFalse hp =>
      exact List.mem_cons_of_mem p (ih h)

/-- The inserted row for each fresh candidate, isolated by its identity
key. -/
theorem insertedRows_filter_key (sid : Nat) (vbk : List (VenueKey × VenueRow))
    (now : DT) (items : List ExtractedActivity)
    (hnd : (items.map identityKey).Nodup) :
    ∀ nid, ∀ it ∈ items, ∃ m,
      (insertedRows sid vbk now items nid).filter
          (fun a => rowKey a = identityKey it)
        = [mkActivityRow m sid (venueFor vbk it) now it] := by
  induction items with
  | nil => intro nid it hit; simp at hit
  | cons it' rest ih =>
    rw [List.map_cons, List.nodup_cons] at hnd
    intro nid it hit
    rcases List.mem_cons.mp hit with rfl | hit'
    · refine ⟨nid, ?_⟩
      rw [insertedRows]
      rw [List.filter_cons_of_pos (by simp [rowKey, mkActivityRow, identityKey])]
      have htail : (insertedRows sid vbk now rest (nid + 1)).filter
          (fun a => rowKey a = identityKey it) = [] := by
        rw [List.filter_eq_nil_iff]
        intro r hr
        simp only [decide_eq_true_eq]
        intro hk
        apply hnd.1
        rw [← hk]
        have : rowKey r ∈ (insertedRows sid vbk now rest (nid + 1)).map rowKey :=
          List.mem_map_of_mem rowKey hr
        rw [insertedRows_map_rowKey] at this
        exact this
      rw [htail]
    · have hne : identityKey it' ≠ identityKey it := by
        intro h
        exact hnd.1 (h ▸ List.mem_map_of_mem identityKey hit')
      rcases ih hnd.2 (nid + 1) it hit' with ⟨m, hm⟩
      refine ⟨m, ?_⟩
      have hpred : ¬ (decide (rowKey (mkActivityRow nid sid (venueFor vbk it') now it') = identityKey it) = true) := by
        simp only [decide_eq_true_eq]
        exact fun h => hne h
      rw [insertedRows, List.filter_cons, if_neg hpred]
      exact hm

/-- The `new_venues` creation pass never discards an already-resolved key. -/
theorem newVenueFold_pres (desired : List (VenueKey × Option PyStr)) :
    ∀ (st : List (VenueKey × VenueRow) × List VenueRow × Nat) (k : VenueKey)
      (v : VenueRow), dictLookup st.1 k = some v →
      dictLookup (desired.foldl newVenueStep st).1 k = some v := by
  induction desired with
  | nil => intro st k v h; exact h
  | cons p rest ih =>
    intro st k v h
    rw [List.foldl_cons]
    apply ih
    unfold newVenueStep
    split
    · exact h
    case isFalse habs =>
      have hne : k ≠ p.1 := by
        intro hk
        rw [← hk, h] at habs
        simp at habs
      rw [dictLookup_dictInsert_ne _ _ _ _ hne]
      exact h

/-- The `new_venues` accumulator only grows. -/
theorem newVenueFold_mono (desired : List (VenueKey × Option PyStr)) :
    ∀ (st : List (VenueKey × VenueRow) × List VenueRow × Nat) (v : VenueRow),
      v ∈ st.2.1 → v ∈ (desired.foldl newVenueStep st).2.1 := by
  induction desired with
  | nil => intro st v h; exact h
  | cons p rest ih =>
    intro st v h
    rw [List.foldl_cons]
    apply ih
    unfold newVenueStep
    split
    · exact h
    · exact List.mem_append_left _ h

/-- Creation pass over keys absent from the map: each desired entry ends up
resolved to a created venue row carrying the key's fields and the recorded
address. -/
theorem newVenueFold_fresh (desired : List (VenueKey × Option PyStr)) :
    ∀ (m0 : List (VenueKey × VenueRow)) (news0 : List VenueRow) (nid0 : Nat),
      (desired.map (·.1)).Nodup →
      (∀ p ∈ desired, dictLookup m0 p.1 = none) →
      ∀ p ∈ desired, ∃ v : VenueRow,
        dictLookup (desired.foldl newVenueStep (m0, news0, nid0)).1 p.1 = some v ∧
        v ∈ (desired.foldl newVenueStep (m0, news0, nid0)).2.1 ∧
        v.name = p.1.1 ∧ v.address = p.2 ∧ v.city = p.1.2.1 ∧ v.state = p.1.2.2 ∧
        v.website = none := by
  induction desired with
  | nil => intro m0 news0 nid0 _ _ p hp; simp at hp
  | cons q rest ih =>
    intro m0 news0 nid0 hnd habs p hp
    rw [List.map_cons, List.nodup_cons] at hnd
    have habsq : dictLookup m0 q.1 = none := habs q (List.mem_cons_self q rest)
    have hstep : newVenueStep (m0, news0, nid0) q
        = (dictInsert q.1 ⟨nid0, q.1.1, q.2, q.1.2.1, q.1.2.2, none⟩ m0,
           news0 ++ [⟨nid0, q.1.1, q.2, q.1.2.1, q.1.2.2, none⟩], nid0 + 1) := by
      unfold newVenueStep
      rw [if_neg (by simp [habsq])]
    rcases List.mem_cons.mp hp with rfl | hp'
    · refine ⟨⟨nid0, p.1.1, p.2, p.1.2.1, p.1.2.2, none⟩, ?_, ?_, rfl, rfl, rfl, rfl, rfl⟩
      · rw [List.foldl_cons, hstep]
        exact newVenueFold_pres rest _ _ _ (dictLookup_dictInsert_self _ _ _)
      · rw [List.foldl_cons, hstep]
        exact newVenueFold_mono rest _ _ (List.mem_append_right _ (List.mem_singleton.mpr rfl))
    · have habs' : ∀ r ∈ rest,
          dictLookup (dictInsert q.1 (⟨nid0, q.1.1, q.2, q.1.2.1, q.1.2.2, none⟩ : VenueRow) m0) r.1 = none := by
        intro r hr
        have hne : r.1 ≠ q.1 := by
          intro h
          exact hnd.1 (h ▸ List.mem_map_of_mem (·.1) hr)
        rw [dictLookup_dictInsert_ne _ _ _ _ hne]
        exact habs r (List.mem_cons_of_mem q hr)
      rw [List.foldl_cons, hstep]
      exact ih _ _ _ hnd.2 habs' p hp'

theorem resolve_venues_unfold (db : DB) (e : List ExtractedActivity)
    (hne : ¬ (desiredVenues e).isEmpty = true) :
    resolve_venues db e =
      ({ db with
          venues := db.venues ++
            ((desiredVenues e).foldl newVenueStep
              (venuesByKeyOf db e, [], db.nextVenueId)).2.1,
          nextVenueId :=
            ((desiredVenues e).foldl newVenueStep
              (venuesByKeyOf db e, [], db.nextVenueId)).2.2 },
        ((desiredVenues e).foldl newVenueStep
          (venuesByKeyOf db e, [], db.nextVenueId)).1) := by
  simp only [resolve_venues]
  rw [if_neg hne]
  rfl

/-- With no stored venue sharing a name with any desired venue, the
`existing_venues` query is empty. -/
theorem existingVenuesOf_eq_nil (db : DB) (e : List ExtractedActivity)
    (Hv : ∀ v ∈ db.venues, ∀ p ∈ desiredVenues e, v.name ≠ p.1.1) :
    existingVenuesOf db e = [] := by
  unfold existingVenuesOf
  rw [List.flatten_eq_nil_iff]
  intro l hl
  rcases List.mem_map.mp hl with ⟨ch, hch, rfl⟩
  rw [List.filter_eq_nil_iff]
  intro v hv
  simp only [decide_eq_true_eq]
  intro hname
  have hmem : v.name ∈ dedupFirst ((desiredVenues e).map (fun p => p.1.1)) :=
    chunked_mem_subset _ _ _ hch _ hname
  have hmem2 : v.name ∈ (desiredVenues e).map (fun p => p.1.1) :=
    dedupFirst_subset _ _ hmem
  rcases List.mem_map.mp hmem2 with ⟨p, hp, hpn⟩
  exact Hv v hv p hp hpn.symm

/-- With no stored venue sharing a name with a desired one, every venue key
of the batch resolves to a freshly created row whose address is the first
non-empty `location_text` among the key's candidates, in batch order. -/
theorem resolve_venues_fresh (db : DB) (e : List ExtractedActivity)
    (Hv : ∀ v ∈ db.venues, ∀ p ∈ desiredVenues e, v.name ≠ p.1.1) :
    ∀ vk it, it ∈ e → venueKeyOf it = some vk →
      ∃ v : VenueRow,
        dictLookup (resolve_venues db e).2 vk = some v ∧
        v ∈ (resolve_venues db e).1.venues ∧
        v.name = vk.1 ∧ v.address = firstNonEmptyLocationInBatch e vk ∧
        v.city = vk.2.1 ∧ v.state = vk.2.2 ∧ v.website = none := by
  intro vk it hit hvk
  have hlk : dictLookup (desiredVenues e) vk
      = some (firstNonEmptyLocationInBatch e vk) :=
    desiredVenues_lookup e vk it hit hvk
  have hpmem : (vk, firstNonEmptyLocationInBatch e vk) ∈ desiredVenues e :=
    dictLookup_mem _ _ _ hlk
  have hne : ¬ (desiredVenues e).isEmpty = true := by
    intro h
    rw [List.isEmpty_iff] at h
    rw [h] at hpmem
    exact (List.not_mem_nil _) hpmem
  have hvbk : venuesByKeyOf db e = [] := by
    unfold venuesByKeyOf
    rw [existingVenuesOf_eq_nil db e Hv]
    rfl
  have habs : ∀ p ∈ desiredVenues e,
      dictLookup (venuesByKeyOf db e) p.1 = none := by
    intro p _
    rw [hvbk]
    rfl
  rcases newVenueFold_fresh (desiredVenues e) (venuesByKeyOf db e) [] db.nextVenueId
      (desiredVenues_keys_nodup e) habs
      (vk, firstNonEmptyLocationInBatch e vk) hpmem with
    ⟨v, hv1, hv2, hv3, hv4, hv5, hv6, hv7⟩
  rw [resolve_venues_unfold db e hne]
  exact ⟨v, hv1, List.mem_append_right _ hv2, hv3, hv4, hv5, hv6, hv7⟩

theorem resolveSource_venues (db : DB) (u a : PyStr) :
    ((resolveSource db u a).1).venues = db.venues := by
  unfold resolveSource
  cases hb : pickLongest (db.sources.filter (sourceMatches u)) <;> simp [hb]

/-- C7 (amended).  Within one `upsert_extracted_activities` run on a store
holding no venue that shares a name with a desired one and no activity row
carrying a batch identity key: (1) candidates with the same normalized
`(venue_name, city, state)` triple are associated with the same venue row;
(2) that row is a created venue whose `address` is the first non-empty
`location_text` among the key's candidates in *identity-deduplicated* batch
order (the run passes `deduped`, not the raw batch, to `_resolve_venues`);
(3) each deduplicated candidate's stored activity row records exactly that
venue association. -/
theorem c7_venue_dedup_first_address (u t : PyStr)
    (extracted : List ExtractedActivity) (now : DT) (db0 : DB)
    (Hv : ∀ v ∈ db0.venues,
      ∀ p ∈ desiredVenues (dedupeByKey identityKey extracted), v.name ≠ p.1.1)
    (H : ∀ a ∈ db0.activities,
      rowKey a ∉ (dedupeByKey identityKey extracted).map identityKey) :
    (∀ item1 item2, item1 ∈ dedupeByKey identityKey extracted →
      item2 ∈ dedupeByKey identityKey extracted →
      venueKeyOf item1 = venueKeyOf item2 →
      venueFor (resolve_venues (resolveSource db0 u t).1
          (dedupeByKey identityKey extracted)).2 item1
        = venueFor (resolve_venues (resolveSource db0 u t).1
            (dedupeByKey identityKey extracted)).2 item2) ∧
    (∀ vk it, it ∈ dedupeByKey identityKey extracted → venueKeyOf it = some vk →
      ∃ v : VenueRow,
        venueFor (resolve_venues (resolveSource db0 u t).1
            (dedupeByKey identityKey extracted)).2 it = some v ∧
        v ∈ (upsert_extracted_activities u extracted t now db0).1.venues ∧
        v.name = vk.1 ∧
        v.address = firstNonEmptyLocationInBatch (dedupeByKey identityKey extracted) vk ∧
        v.city = vk.2.1 ∧ v.state = vk.2.2 ∧ v.website = none) ∧
    (∀ it, it ∈ dedupeByKey identityKey extracted → ∃ m,
      ((upsert_extracted_activities u extracted t now db0).1.activities.filter
          (fun a => rowKey a = identityKey it))
        = [mkActivityRow m (resolveSource db0 u t).2.id
            (venueFor (resolve_venues (resolveSource db0 u t).1
              (dedupeByKey identityKey extracted)).2 it) now it]) := by
  have Hv' : ∀ v ∈ ((resolveSource db0 u t).1).venues,
      ∀ p ∈ desiredVenues (dedupeByKey identityKey extracted), v.name ≠ p.1.1 := by
    rw [resolveSource_venues]
    exact Hv
  refine ⟨?_, ?_, ?_⟩
  · intro item1 item2 _ _ hvkeq
    unfold venueFor
    rw [hvkeq]
  · intro vk it hit hvk
    have hne : ¬ (dedupeByKey identityKey extracted).isEmpty = true := by
      intro h
      rw [List.isEmpty_iff] at h
      rw [h] at hit
      exact (List.not_mem_nil _) hit
    rcases resolve_venues_fresh ((resolveSource db0 u t).1)
        (dedupeByKey identityKey extracted) Hv' vk it hit hvk with
      ⟨v, hv1, hv2, hv3, hv4, hv5, hv6, hv7⟩
    refine ⟨v, ?_, ?_, hv3, hv4, hv5, hv6, hv7⟩
    · unfold venueFor
      rw [hvk]
      exact hv1
    · rw [upsert_run_fresh u t extracted now db0 hne H]
      exact hv2
  · intro it hit
    have hne : ¬ (dedupeByKey identityKey extracted).isEmpty = true := by
      intro h
      rw [List.isEmpty_iff] at h
      rw [h] at hit
      exact (List.not_mem_nil _) hit
    have hold : db0.activities.filter (fun a => rowKey a = identityKey it) = [] := by
      rw [List.filter_eq_nil_iff]
      intro a ha
      simp only [decide_eq_true_eq]
      intro hk
      exact H a ha (hk ▸ List.mem_map_of_mem identityKey hit)
    rcases insertedRows_filter_key (resolveSource db0 u t).2.id
        (resolve_venues (resolveSource db0 u t).1 (dedupeByKey identityKey extracted)).2
        now _ (dedupeByKey_keys_nodup extracted) db0.nextActivityId it hit with ⟨m, hm⟩
    refine ⟨m, ?_⟩
    rw [upsert_run_fresh u t extracted now db0 hne H]
    show (db0.activities ++ insertedRows (resolveSource db0 u t).2.id
        (resolve_venues (resolveSource db0 u t).1 (dedupeByKey identityKey extracted)).2
        now (dedupeByKey identityKey extracted) db0.nextActivityId).filter
        (fun a => rowKey a = identityKey it) = _
    rw [List.filter_append, hold, List.nil_append]
    exact hm

/-- C7 counterexample to the claim's "batch order" reading: both candidates
carry the venue key and `123 Main St` is the first non-empty address in raw
batch order, yet the run records `456 Oak Ave` — `_resolve_venues` sees the
identity-deduplicated batch, which keeps only the later candidate. -/
theorem c7_counterexample_batch_order :
    ((upsert_extracted_activities ("https://example.org/events".toList)
        [c7cA, c7cB] ("static_html".toList) ⟨2026, 3, 1, 8, 0, 0, none⟩
        DB.empty).1.venues.map (fun v => v.address))
      = [some ("456 Oak Ave".toList)] ∧
    venueKeyOf c7cA = some c7cKey ∧ venueKeyOf c7cB = some c7cKey ∧
    firstNonEmptyLocationInBatch [c7cA, c7cB] c7cKey
      = some ("123 Main St".toList) := by
  decide

theorem c7_venue_dedup_first_address_witness :
    (venueFor (resolve_venues
        (resolveSource DB.empty ("https://example.org/events".toList) ("static_html".toList)).1
        (dedupeByKey identityKey [c7wA, c7wB])).2 c7wA
      = venueFor (resolve_venues
          (resolveSource DB.empty ("https://example.org/events".toList) ("static_html".toList)).1
          (dedupeByKey identityKey [c7wA, c7wB])).2 c7wB) ∧
    (∃ v : VenueRow,
      venueFor (resolve_venues
          (resolveSource DB.empty ("https://example.org/events".toList) ("static_html".toList)).1
          (dedupeByKey identityKey [c7wA, c7wB])).2 c7wA = some v ∧
      v ∈ (upsert_extracted_activities ("https://example.org/events".toList)
          [c7wA, c7wB] ("static_html".toList) ⟨2026, 2, 1, 9, 0, 0, none⟩
          DB.empty).1.venues ∧
      v.name = c7wKey.1 ∧
      v.address = firstNonEmptyLocationInBatch (dedupeByKey identityKey [c7wA, c7wB]) c7wKey ∧
      v.city = c7wKey.2.1 ∧ v.state = c7wKey.2.2 ∧ v.website = none) ∧
    (∃ m, ((upsert_extracted_activities ("https://example.org/events".toList)
          [c7wA, c7wB] ("static_html".toList) ⟨2026, 2, 1, 9, 0, 0, none⟩
          DB.empty).1.activities.filter (fun a => rowKey a = identityKey c7wA))
        = [mkActivityRow m
            (resolveSource DB.empty ("https://example.org/events".toList) ("static_html".toList)).2.id
            (venueFor (resolve_venues
              (resolveSource DB.empty ("https://example.org/events".toList) ("static_html".toList)).1
              (dedupeByKey identityKey [c7wA, c7wB])).2 c7wA)
            ⟨2026, 2, 1, 9, 0, 0, none⟩ c7wA]) :=
  ⟨(c7_venue_dedup_first_address ("https://example.org/events".toList)
      ("static_html".toList) [c7wA, c7wB] ⟨2026, 2, 1, 9, 0, 0, none⟩ DB.empty
      (by intro v hv; simp [DB.empty] at hv)
      (by intro a ha; simp [DB.empty] at ha)).1 c7wA c7wB
      (by decide) (by decide) (by decide),
   (c7_venue_dedup_first_address ("https://example.org/events".toList)
      ("static_html".toList) [c7wA, c7wB] ⟨2026, 2, 1, 9, 0, 0, none⟩ DB.empty
      (by intro v hv; simp [DB.empty] at hv)
      (by intro a ha; simp [DB.empty] at ha)).2.1 c7wKey c7wA
      (by decide) (by decide),
   (c7_venue_dedup_first_address ("https://example.org/events".toList)
      ("static_html".toList) [c7wA, c7wB] ⟨2026, 2, 1, 9, 0, 0, none⟩ DB.empty
      (by intro v hv; simp [DB.empty] at hv)
      (by intro a ha; simp [DB.empty] at ha)).2.2 c7wA (by decide)⟩

theorem c10_to_free_status_total_witness :
    to_free_status ("bogus".toList) = FreeVerificationStatus.inferred ∧
    (c10Row ∈ DB.empty.activities ∨ ∃ item ∈ dedupeByKey identityKey [c10Item],
      c10Row.free_verification_status
        = to_free_status item.free_verification_status) :=
  ⟨c10_to_free_status_total.2.2.2.1 ("bogus".toList)
      (by decide) (by decide) (by decide),
   c10_to_free_status_total.2.2.2.2 ("https://example.org/events".toList)
      [c10Item] ("static_html".toList) ⟨2026, 4, 1, 7, 0, 0, none⟩ DB.empty
      c10Row (by decide)⟩

theorem retryWait_none (base : ℚ) (attempt : Nat) (r : HttpResponse)
    (h : r.retryAfter = none) : retryWait base attempt r = backoffWait base attempt := by
  unfold retryWait
  rw [h]

theorem retryWait_digit (base : ℚ) (attempt : Nat) (r : HttpResponse)
    (ra : PyStr) (h : r.retryAfter = some ra) (hd : pyIsDigit ra = true) :
    retryWait base attempt r = (digitsToNat ra : ℚ) := by
  unfold retryWait
  rw [h]
  simp [hd]

/-- C4: with statuses 503, 503, 200 over attempts 1–3 and no `Retry-After`,
both fetchers sleep `base*1` then `base*2` and return the third body; a
plain-integer `Retry-After` replaces the computed backoff; a status below
400 returns immediately with no sleep. -/
theorem c4_fetch_retry_backoff :
    (∀ (base : ℚ) (responses : Nat → HttpResponse) (upf : Bool) (pw : Option PyStr),
      (responses 1).status = 503 → (responses 1).retryAfter = none →
      (responses 2).status = 503 → (responses 2).retryAfter = none →
      (responses 3).status = 200 →
      fetch_mfa_events_page responses base 5
        = (FetchResult.success (responses 3).body, [base * 1, base * 2]) ∧
      fetch_met_events_page responses base 5 upf pw
        = (FetchResult.success (responses 3).body, [base * 1, base * 2])) ∧
    (∀ (base : ℚ) (responses : Nat → HttpResponse),
      (responses 1).status = 429 → (responses 1).retryAfter = some ("7".toList) →
      (responses 2).status = 200 →
      fetch_mfa_events_page responses base 5
        = (FetchResult.success ((responses 2).body), [(7 : ℚ)])) ∧
    (∀ (base : ℚ) (responses : Nat → HttpResponse) (m : Nat),
      (responses 1).status < 400 →
      fetch_mfa_events_page responses base (m + 1)
        = (FetchResult.success ((responses 1).body), [])) := by
  refine ⟨?_, ?_, ?_⟩
  · intro base responses upf pw h1 h1r h2 h2r h3
    have hloop : fetchHttpLoop responses base 5 (List.range' 1 5) []
        = (FetchResult.success (responses 3).body, [base * 1, base * 2]) := by
      rw [show List.range' 1 5 = [1, 2, 3, 4, 5] from rfl]
      simp only [fetchHttpLoop]
      rw [retryWait_none base 1 _ h1r, retryWait_none base 2 _ h2r]
      norm_num [h1, h2, h3, backoffWait]
    constructor
    · unfold fetch_mfa_events_page
      exact hloop
    · unfold fetch_met_events_page
      rw [hloop]
  · intro base responses h1 h1r h2
    unfold fetch_mfa_events_page
    rw [show List.range' 1 5 = [1, 2, 3, 4, 5] from rfl]
    simp only [fetchHttpLoop]
    rw [retryWait_digit base 1 _ _ h1r (by decide),
      show digitsToNat ("7".toList) = 7 from rfl]
    norm_num [h1, h2]
  · intro base responses m h
    unfold fetch_mfa_events_page
    simp only [List.range']
    simp only [fetchHttpLoop]
    rw [if_pos h]

theorem c4_fetch_retry_backoff_witness :
    (fetch_mfa_events_page c4Resp 2 5
        = (FetchResult.success ("ok".toList), [(2 : ℚ) * 1, (2 : ℚ) * 2]) ∧
      fetch_met_events_page c4Resp 2 5 true none
        = (FetchResult.success ("ok".toList), [(2 : ℚ) * 1, (2 : ℚ) * 2])) ∧
    fetch_mfa_events_page c4Resp2 3 5
      = (FetchResult.success ("ok2".toList), [(7 : ℚ)]) ∧
    fetch_mfa_events_page (fun _ => ⟨200, none, "ok3".toList⟩) 2 5
      = (FetchResult.success ("ok3".toList), []) :=
  ⟨c4_fetch_retry_backoff.1 2 c4Resp true none rfl rfl rfl rfl rfl,
   c4_fetch_retry_backoff.2.1 3 c4Resp2 rfl rfl rfl,
   c4_fetch_retry_backoff.2.2 2 (fun _ => ⟨200, none, "ok3".toList⟩) 4 (by decide)⟩

/-- C8: the explicit-range branch works (`Ages 8-12` → (8, 12)) and the
audience defaults work, but the claim's `(13, None)` branch is unreachable
for the shape the pages carry: `AGE_PLUS_RE`'s trailing `\b` sits after the
non-word `+`, so it demands a word character right after the `+`, and
`"Ages 13+"` (end of text, or followed by space/punctuation) never matches —
the parsers fall through to the audience default instead. -/
theorem c8_age_plus_boundary_dead :
    whitney_parse_age_range ("Ages 8-12 Workshop".toList) none = (some 8, some 12) ∧
    moma_parse_age_range ("Ages 8-12 Workshop".toList) none ("teens".toList)
      = (some 8, some 12) ∧
    searchAgePlus ("Ages 13+".toList) = none ∧
    searchAgePlus ("Ages 13+ only".toList) = none ∧
    whitney_parse_age_range ("Ages 13+".toList) none = (some 13, some 17) ∧
    moma_parse_age_range ("Ages 13+".toList) none ("teens".toList)
      = (some 13, some 17) ∧
    moma_parse_age_range ("Ages 13+".toList) none ("kids".toList)
      = (none, some 12) ∧
    whitney_parse_age_range ("Teen Craft Night".toList) none
      = (some 13, some 17) ∧
    moma_parse_age_range ("Teen Craft Night".toList) none ("teens".toList)
      = (some 13, some 17) ∧
    searchAgePlus ("Ages 13+s".toList) = some 13 := by
  decide

/-- C5 counterexample to "a bare time with neither a date nor a cursor day
never yields a result": the Met parser substitutes the wall clock for the
missing day and returns a timestamp. -/
theorem c5_counterexample_met_now_substitution :
    met_parse_start_datetime none (some ("3:00 PM Gallery 1".toList))
        ⟨2026, 5, 4, 11, 30, 45, none⟩
      = some ⟨2026, 5, 4, 15, 0, 0, none⟩ := by
  decide

/-- C5 (amended).  The mfa/whitney `_parse_datetime` indeed yields nothing
without a textual date: whenever neither the ISO form nor `DATE_TIME_RE`
finds a date in the normalized text the result is `None`, and bare times
parse to `None`; with a date present the timestamp comes out.  The Met
`_parse_start_datetime`, however, *always* returns a timestamp: a missing
cursor day is replaced by `now`, so a bare time line with no day yields a
`now`-based result rather than nothing (and a supplied cursor day is used
as the date). -/
theorem c5_temporal_date_requirement :
    (∀ value : PyStr, fromisoformatLite (mfaNormalizedText value) = none →
      searchDateTime (mfaNormalizedText value) = none →
      mfa_parse_datetime value = none) ∧
    mfa_parse_datetime ("3:00 PM".toList) = none ∧
    mfa_parse_datetime ("7 pm".toList) = none ∧
    mfa_parse_datetime ("January 10, 2026 3:00 PM".toList)
      = some ⟨2026, 1, 10, 15, 0, 0, none⟩ ∧
    (∀ now : DT,
      met_parse_start_datetime none (some ("3:00 PM Gallery 1".toList)) now
        = some { now with hour := 15, minute := 0, second := 0 }) ∧
    (∀ now d : DT,
      met_parse_start_datetime (some d) (some ("3:00 PM Gallery 1".toList)) now
        = some { d with hour := 15, minute := 0, second := 0 }) := by
  refine ⟨?_, by decide, by decide, by decide, fun now => rfl, fun now d => rfl⟩
  intro value h1 h2
  simp only [mfa_parse_datetime]
  split
  · rfl
  · split
    · rfl
    · rw [h1, h2]

theorem c5_temporal_date_requirement_witness :
    mfa_parse_datetime ("tomorrow 3pm".toList) = none ∧
    met_parse_start_datetime none (some ("3:00 PM Gallery 1".toList))
        ⟨2026, 6, 2, 9, 5, 0, none⟩
      = some ⟨2026, 6, 2, 15, 0, 0, none⟩ :=
  ⟨c5_temporal_date_requirement.1 ("tomorrow 3pm".toList) (by decide) (by decide),
   c5_temporal_date_requirement.2.2.2.2.1 ⟨2026, 6, 2, 9, 5, 0, none⟩⟩

/-- Block-scan characterization: processing with an open block folds the
non-boundary prefix into the accumulator, flushes it, and continues at the
first boundary line with no open block. -/
theorem metLinesStep_some (ttl : List (PyStr × List PyStr))
    (parseHeading : PyStr → DT) (now : DT) :
    ∀ (ls : List PyStr) (cursor : Option DT) (b : MetBlock),
      metLinesStep ttl parseHeading now cursor (some b) ls
        = metFlush now cursor
            ((ls.takeWhile (fun l => ¬ metBoundary ttl l)).foldl metUpdateBlock b)
          ++ metLinesStep ttl parseHeading now cursor none
              (ls.dropWhile (fun l => ¬ metBoundary ttl l)) := by
  intro ls
  induction ls with
  | nil =>
    intro cursor b
    simp [metLinesStep]
  | cons l rest ih =>
    intro cursor b
    by_cases hb : metBoundary ttl l = true
    · have hstep : metLinesStep ttl parseHeading now cursor (some b) (l :: rest)
          = metFlush now cursor b ++ metLinesStep ttl parseHeading now
              (metClassify ttl parseHeading cursor l).1
              (metClassify ttl parseHeading cursor l).2 rest := by
        show (if metBoundary ttl l then
            metFlush now cursor b ++ metLinesStep ttl parseHeading now
              (metClassify ttl parseHeading cursor l).1
              (metClassify ttl parseHeading cursor l).2 rest
          else metLinesStep ttl parseHeading now cursor
            (some (metUpdateBlock b l)) rest) = _
        rw [if_pos hb]
      have hnone : metLinesStep ttl parseHeading now cursor none (l :: rest)
          = metLinesStep ttl parseHeading now
              (metClassify ttl parseHeading cursor l).1
              (metClassify ttl parseHeading cursor l).2 rest := rfl
      have htake : (l :: rest).takeWhile (fun x => ¬ metBoundary ttl x) = [] := by
        simp [List.takeWhile_cons, hb]
      have hdrop : (l :: rest).dropWhile (fun x => ¬ metBoundary ttl x)
          = l :: rest := by
        simp [List.dropWhile_cons, hb]
      rw [hstep, htake, hdrop, List.foldl_nil, hnone]
    · have hstep : metLinesStep ttl parseHeading now cursor (some b) (l :: rest)
          = metLinesStep ttl parseHeading now cursor
              (some (metUpdateBlock b l)) rest := by
        show (if metBoundary ttl l then
            metFlush now cursor b ++ metLinesStep ttl parseHeading now
              (metClassify ttl parseHeading cursor l).1
              (metClassify ttl parseHeading cursor l).2 rest
          else metLinesStep ttl parseHeading now cursor
            (some (metUpdateBlock b l)) rest) = _
        rw [if_neg hb]
      have htake : (l :: rest).takeWhile (fun x => ¬ metBoundary ttl x)
          = l :: rest.takeWhile (fun x => ¬ metBoundary ttl x) := by
        simp [List.takeWhile_cons, hb]
      have hdrop : (l :: rest).dropWhile (fun x => ¬ metBoundary ttl x)
          = rest.dropWhile (fun x => ¬ metBoundary ttl x) := by
        simp [List.dropWhile_cons, hb]
      rw [hstep, ih cursor (metUpdateBlock b l), htake, hdrop, List.foldl_cons]

theorem metFlush_skip (now : DT) (cursor : Option DT) (b : MetBlock)
    (p : PyStr) (hp : b.price_line = some p)
    (hfree : pyContains (pyLower p) ("free".toList) = false) :
    metFlush now cursor b = [] := by
  unfold metFlush
  rw [hp]
  show (if pyContains (pyLower p) ("free".toList) = true then
    [metBuildRow now cursor b] else []) = _
  rw [if_neg (by rw [hfree]; exact Bool.false_ne_true)]

theorem metFlush_keep (now : DT) (cursor : Option DT) (b : MetBlock)
    (p : PyStr) (hp : b.price_line = some p)
    (hfree : pyContains (pyLower p) ("free".toList) = true) :
    metFlush now cursor b = [metBuildRow now cursor b] := by
  unfold metFlush
  rw [hp]
  show (if pyContains (pyLower p) ("free".toList) = true then
    [metBuildRow now cursor b] else []) = _
  rw [if_pos hfree]

/-- C6: in the Met line-cursor fallback, a block opened by a known,
non-irrelevant title whose collected price line is present and lacks
"free" (case-insensitively) produces no record — the loop jumps to the
block's end — while the same block with "free" in its price line is
retained as one record followed by the continuation. -/
theorem c6_met_free_only_filter (ttl : List (PyStr × List PyStr))
    (parseHeading : PyStr → DT) (now : DT) (cursor : Option DT)
    (title : PyStr) (rest : List PyStr) (links : List PyStr)
    (hlinks : dictLookup ttl title = some links)
    (hirr : is_irrelevant_item_text (some title) = false)
    (hdate : dateHeadingMatch title = none) :
    (∀ p, ((rest.takeWhile (fun l => ¬ metBoundary ttl l)).foldl metUpdateBlock
        ⟨title, links.headD [], none, none, none⟩).price_line = some p →
      pyContains (pyLower p) ("free".toList) = false →
      metLinesStep ttl parseHeading now cursor none (title :: rest)
        = metLinesStep ttl parseHeading now cursor none
            (rest.dropWhile (fun l => ¬ metBoundary ttl l))) ∧
    (∀ p, ((rest.takeWhile (fun l => ¬ metBoundary ttl l)).foldl metUpdateBlock
        ⟨title, links.headD [], none, none, none⟩).price_line = some p →
      pyContains (pyLower p) ("free".toList) = true →
      metLinesStep ttl parseHeading now cursor none (title :: rest)
        = metBuildRow now cursor
            ((rest.takeWhile (fun l => ¬ metBoundary ttl l)).foldl metUpdateBlock
              ⟨title, links.headD [], none, none, none⟩)
          :: metLinesStep ttl parseHeading now cursor none
              (rest.dropWhile (fun l => ¬ metBoundary ttl l))) := by
  have hclass : metClassify ttl parseHeading cursor title
      = (cursor, some ⟨title, links.headD [], none, none, none⟩) := by
    unfold metClassify
    rw [hdate, hlinks]
    show (if is_irrelevant_item_text (some title) = true then ((cursor, none) : Option DT × Option MetBlock)
      else (cursor, some ⟨title, links.headD [], none, none, none⟩)) = _
    rw [if_neg (by rw [hirr]; exact Bool.false_ne_true)]
  have hopen : metLinesStep ttl parseHeading now cursor none (title :: rest)
      = metLinesStep ttl parseHeading now cursor
          (some ⟨title, links.headD [], none, none, none⟩) rest := by
    show metLinesStep ttl parseHeading now
        (metClassify ttl parseHeading cursor title).1
        (metClassify ttl parseHeading cursor title).2 rest = _
    rw [hclass]
  constructor
  · intro p hp hfree
    rw [hopen, metLinesStep_some, metFlush_skip now cursor _ p hp hfree,
      List.nil_append]
  · intro p hp hfree
    rw [hopen, metLinesStep_some, metFlush_keep now cursor _ p hp hfree]
    rfl

theorem c6_met_free_only_filter_witness :
    metLinesStep c6Ttl c6Heading c6Now none none
        (("Teen Studio".toList) :: c6RestA)
      = metLinesStep c6Ttl c6Heading c6Now none none
          (c6RestA.dropWhile (fun l => ¬ metBoundary c6Ttl l)) ∧
    metLinesStep c6Ttl c6Heading c6Now none none
        (("Clay Lab".toList) :: c6RestB)
      = metBuildRow c6Now none
          ((c6RestB.takeWhile (fun l => ¬ metBoundary c6Ttl l)).foldl
            metUpdateBlock
            ⟨"Clay Lab".toList, ("https://engage.metmuseum.org/e/2".toList),
              none, none, none⟩)
        :: metLinesStep c6Ttl c6Heading c6Now none none
            (c6RestB.dropWhile (fun l => ¬ metBoundary c6Ttl l)) :=
  ⟨(c6_met_free_only_filter c6Ttl c6Heading c6Now none ("Teen Studio".toList)
      c6RestA [("https://engage.metmuseum.org/e/1".toList)]
      (by decide) (by decide) (by decide)).1
      ("$12 per person".toList) (by decide) (by decide),
   (c6_met_free_only_filter c6Ttl c6Heading c6Now none ("Clay Lab".toList)
      c6RestB [("https://engage.metmuseum.org/e/2".toList)]
      (by decide) (by decide) (by decide)).2
      ("Free with admission".toList) (by decide) (by decide)⟩

/-- C3: each top-level parse returns the structured-payload rows whenever
they are non-empty — the result does not depend on the DOM fallback at all
in that case, which is how "the fallback is never invoked" reads in a pure
model — and equals the DOM fallback's rows exactly when the payload
strategy came back empty. -/
theorem c3_strategy_ordering :
    (∀ (Html : Type) (js dom : Html → List ExtractedActivity) (html : Html),
      (¬ (js html).isEmpty = true →
        parse_mfa_events_html js dom html = js html ∧
        ∀ dom' : Html → List ExtractedActivity,
          parse_mfa_events_html js dom' html = js html) ∧
      ((js html).isEmpty = true →
        parse_mfa_events_html js dom html = dom html)) ∧
    (∀ (Html : Type) (js dom : Html → List ExtractedActivity) (html : Html),
      (¬ (js html).isEmpty = true →
        parse_whitney_events_html js dom html = js html ∧
        ∀ dom' : Html → List ExtractedActivity,
          parse_whitney_events_html js dom' html = js html) ∧
      ((js html).isEmpty = true →
        parse_whitney_events_html js dom html = dom html)) ∧
    (∀ (Html : Type) (js : Html → PyStr → List ExtractedActivity)
        (dom : Html → PyStr → Option DT → List ExtractedActivity)
        (html : Html) (audience : PyStr) (now : Option DT),
      (¬ (js html audience).isEmpty = true →
        parse_moma_events_html js dom html audience now = js html audience ∧
        ∀ dom' : Html → PyStr → Option DT → List ExtractedActivity,
          parse_moma_events_html js dom' html audience now = js html audience) ∧
      ((js html audience).isEmpty = true →
        parse_moma_events_html js dom html audience now
          = dom html audience now)) := by
  refine ⟨?_, ?_, ?_⟩
  · intro Html js dom html
    constructor
    · intro h
      constructor
      · unfold parse_mfa_events_html
        rw [if_neg h]
      · intro dom'
        unfold parse_mfa_events_html
        rw [if_neg h]
    · intro h
      unfold parse_mfa_events_html
      rw [if_pos h]
  · intro Html js dom html
    constructor
    · intro h
      constructor
      · unfold parse_whitney_events_html
        rw [if_neg h]
      · intro dom'
        unfold parse_whitney_events_html
        rw [if_neg h]
    · intro h
      unfold parse_whitney_events_html
      rw [if_pos h]
  · intro Html js dom html audience now
    constructor
    · intro h
      constructor
      · unfold parse_moma_events_html
        rw [if_neg h]
      · intro dom'
        unfold parse_moma_events_html
        rw [if_neg h]
    · intro h
      unfold parse_moma_events_html
      rw [if_pos h]

theorem c3_strategy_ordering_witness :
    parse_mfa_events_html (fun _ : Unit => [c3Item]) (fun _ => [c3DomItem]) ()
      = [c3Item] ∧
    parse_mfa_events_html (fun _ : Unit => []) (fun _ => [c3DomItem]) ()
      = [c3DomItem] ∧
    parse_whitney_events_html (fun _ : Unit => [c3Item]) (fun _ => [c3DomItem]) ()
      = [c3Item] ∧
    parse_moma_events_html (fun _ : Unit => fun _ => [c3Item])
        (fun _ => fun _ => fun _ => [c3DomItem]) () ("teens".toList) none
      = [c3Item] :=
  ⟨((c3_strategy_ordering.1 Unit (fun _ => [c3Item]) (fun _ => [c3DomItem]) ()).1
      (by decide)).1,
   (c3_strategy_ordering.1 Unit (fun _ => []) (fun _ => [c3DomItem]) ()).2
      (by decide),
   ((c3_strategy_ordering.2.1 Unit (fun _ => [c3Item]) (fun _ => [c3DomItem]) ()).1
      (by decide)).1,
   ((c3_strategy_ordering.2.2 Unit (fun _ => fun _ => [c3Item])
      (fun _ => fun _ => fun _ => [c3DomItem]) () ("teens".toList) none).1
      (by decide)).1⟩
